import Mathlib

/-!
Verification development for the PIP-Manuscripts-Processor VLM evaluation
subsystem: a shallow embedding, in Lean 4, of the evaluation driver
(`src/04_inference/evaluate_diagrams.py`), the prediction consolidator
(`src/utils/consolidate_predictions_unified.py`) and the two ground-truth
comparators (`src/06_analysis/evaluate_against_ground_truth.py` and
`src/06_analysis/calculate_morphological_metrics.py`), together with
theorems settling the specification claims about them.

Python strings are represented as `List Char` (ASCII suffices for every
string the embedded code manipulates); JSON values as the inductive `JVal`;
the filesystem visible to the driver as the list of file names present in
the run's output directory; network adapters as explicit functions from an
outcome describing what the provider did.
-/

set_option maxRecDepth 8000

/-- Python strings are modelled as lists of characters. -/
abbrev Str := List Char

/-- Opening brace character (written via its code point). -/
def lbraceC : Char := Char.ofNat 123

/-- Closing brace character (written via its code point). -/
def rbraceC : Char := Char.ofNat 125

/-- Backtick character (written via its code point). -/
def backtickC : Char := Char.ofNat 96

/-- The characters Python's `\s` regex class and `str.strip()` treat as
whitespace, restricted to ASCII: space, tab, newline, carriage return,
form feed and vertical tab. -/
def pyWs (c : Char) : Bool :=
  c = ' ' || c = '\t' || c = '\n' || c = '\r' || c = Char.ofNat 11 || c = Char.ofNat 12

/-- Drop leading Python whitespace. -/
def skipWs (s : Str) : Str := s.dropWhile pyWs

/-- Python `str.strip()`: remove whitespace from both ends. -/
def pyStrip (s : Str) : Str := (((s.dropWhile pyWs).reverse).dropWhile pyWs).reverse

/-- Python `str.lower()` (ASCII case folding, which covers every label in
the embedded pipeline). -/
def pyLower (s : Str) : Str := s.map Char.toLower

/-- Lexicographic comparison of character lists by code point, the order
Python's `sorted` uses on the ASCII directory names at hand. -/
def lexLe : Str → Str → Bool
  | [], _ => true
  | _ :: _, [] => false
  | a :: as, b :: bs =>
    if a.toNat < b.toNat then true
    else if b.toNat < a.toNat then false
    else lexLe as bs

/-- JSON values, the result type of Python's `json.loads` as used by the
pipeline (dictionaries are association lists whose keys are unique because
the parser applies dict replace-on-duplicate semantics). -/
inductive JVal where
  | null : JVal
  | bool (b : Bool) : JVal
  | num (n : Int) : JVal
  | str (s : Str) : JVal
  | arr (xs : List JVal) : JVal
  | obj (fields : List (Str × JVal)) : JVal

/-- Structural equality of JSON values (fuel-bounded so it computes in the
kernel); `jvalEq` below supplies enough fuel. -/
def jvalEqF : Nat → JVal → JVal → Bool
  | 0, _, _ => false
  | _ + 1, .null, .null => true
  | _ + 1, .bool a, .bool b => a = b
  | _ + 1, .num a, .num b => a = b
  | _ + 1, .str a, .str b => a = b
  | fuel + 1, .arr a, .arr b =>
    a.length = b.length && (a.zip b).all (fun p => jvalEqF fuel p.1 p.2)
  | fuel + 1, .obj a, .obj b =>
    a.length = b.length &&
      (a.zip b).all (fun p => p.1.1 = p.2.1 && jvalEqF fuel p.1.2 p.2.2)
  | _ + 1, _, _ => false

mutual

/-- Depth of a JSON value (used as fuel for the equality tests below). -/
def jvalDepth : JVal → Nat
  | .null | .bool _ | .num _ | .str _ => 1
  | .arr xs => 1 + jvalListDepth xs
  | .obj fs => 1 + jvalObjDepth fs

/-- Maximum depth over a list of JSON values. -/
def jvalListDepth : List JVal → Nat
  | [] => 0
  | v :: rest => max (jvalDepth v) (jvalListDepth rest)

/-- Maximum depth over the values of an association list. -/
def jvalObjDepth : List (Str × JVal) → Nat
  | [] => 0
  | (_, v) :: rest => max (jvalDepth v) (jvalObjDepth rest)

end

/-- Structural equality of JSON values (the depth of the left operand
bounds the recursion, so it is always enough fuel). -/
def jvalEq (a b : JVal) : Bool := jvalEqF (jvalDepth a) a b

/-- Python `==` on parsed JSON values: like structural equality, except
that `True == 1` and `False == 0` (Python's `bool` is a subclass of `int`)
and dictionaries compare unordered by key. Fuel-bounded for kernel
computation; `pyEq` supplies enough fuel. -/
def pyEqF : Nat → JVal → JVal → Bool
  | 0, _, _ => false
  | _ + 1, .null, .null => true
  | _ + 1, .bool a, .bool b => a = b
  | _ + 1, .bool a, .num n => (if a then (1 : Int) else 0) = n
  | _ + 1, .num n, .bool b => n = (if b then (1 : Int) else 0)
  | _ + 1, .num a, .num b => a = b
  | _ + 1, .str a, .str b => a = b
  | fuel + 1, .arr a, .arr b =>
    a.length = b.length && (a.zip b).all (fun p => pyEqF fuel p.1 p.2)
  | fuel + 1, .obj a, .obj b =>
    a.length = b.length &&
      a.all (fun kv =>
        match b.find? (fun kv' => kv'.1 = kv.1) with
        | some kv' => pyEqF fuel kv.2 kv'.2
        | none => false)
  | _ + 1, _, _ => false

/-- Python `==` on parsed JSON values. -/
def pyEq (a b : JVal) : Bool := pyEqF (jvalDepth a) a b

/-- Insert a key/value pair into an association list with Python dict
semantics: replace the value in place if the key exists, else append. -/
def objInsert (k : Str) (v : JVal) : List (Str × JVal) → List (Str × JVal)
  | [] => [(k, v)]
  | (k', v') :: rest =>
    if k' = k then (k, v) :: rest else (k', v') :: objInsert k v rest

/-- Parse one JSON string literal body (after the opening quote), returning
the decoded characters and the input remaining after the closing quote.
Handles the simple escapes; `\u` escapes and raw control characters are
rejected, as are unterminated strings. -/
def parseStrBody : Nat → Str → Option (Str × Str)
  | 0, _ => none
  | _ + 1, [] => none
  | fuel + 1, c :: rest =>
    if c = '\"' then some ([], rest)
    else if c = '\\' then
      match rest with
      | [] => none
      | e :: rest' =>
        let dec : Option Char :=
          if e = '\"' then some '\"'
          else if e = '\\' then some '\\'
          else if e = '/' then some '/'
          else if e = 'b' then some (Char.ofNat 8)
          else if e = 'f' then some (Char.ofNat 12)
          else if e = 'n' then some '\n'
          else if e = 'r' then some '\r'
          else if e = 't' then some '\t'
          else none
        match dec with
        | some d =>
          match parseStrBody fuel rest' with
          | some (s, rem) => some (d :: s, rem)
          | none => none
        | none => none
    else if c.toNat < 32 then none
    else
      match parseStrBody fuel rest with
      | some (s, rem) => some (c :: s, rem)
      | none => none

/-- Parse a JSON integer numeral at the head of the input: optional minus
sign, digits, no leading zero. Inputs continuing with `.`, `e` or `E`
(floats, which the embedded pipeline never produces) are rejected. -/
def parseNum (s : Str) : Option (Int × Str) :=
  let (neg, t) :=
    match s with
    | c :: rest => if c = '-' then (true, rest) else (false, s)
    | [] => (false, s)
  let digits := t.takeWhile Char.isDigit
  let rest := t.dropWhile Char.isDigit
  if digits = [] then none
  else if digits.length > 1 && digits.headD '0' = '0' then none
  else
    match rest with
    | c :: _ => if c = '.' || c = 'e' || c = 'E' then none else
        let n : Nat := digits.foldl (fun acc d => acc * 10 + (d.toNat - 48)) 0
        some (if neg then -(n : Int) else (n : Int), rest)
    | [] =>
        let n : Nat := digits.foldl (fun acc d => acc * 10 + (d.toNat - 48)) 0
        some (if neg then -(n : Int) else (n : Int), rest)

/-- Parsing mode for the recursive-descent JSON parser: a value, the rest
of an array after `[` or a `,` (with elements accumulated so far), or the
rest of an object after the opening brace or a `,` (with members
accumulated so far). -/
inductive PMode where
  | val : PMode
  | arrRest (acc : List JVal) : PMode
  | objRest (acc : List (Str × JVal)) : PMode

/-- The recursive-descent JSON parser, fuel-bounded (one combined function
so the recursion is structural on the fuel and computes in the kernel).
Whitespace is already skipped at each entry point. -/
def parseF : Nat → PMode → Str → Option (JVal × Str)
  | 0, _, _ => none
  | fuel + 1, .val, s =>
    match s with
    | [] => none
    | c :: rest =>
      if c = 'n' then
        if rest.take 3 = ("ull".toList) then some (.null, rest.drop 3) else none
      else if c = 't' then
        if rest.take 3 = ("rue".toList) then some (.bool true, rest.drop 3) else none
      else if c = 'f' then
        if rest.take 4 = ("alse".toList) then some (.bool false, rest.drop 4) else none
      else if c = '\"' then
        match parseStrBody (rest.length + 1) rest with
        | some (str, rem) => some (.str str, rem)
        | none => none
      else if c = '[' then
        parseF fuel (.arrRest []) (skipWs rest)
      else if c = lbraceC then
        parseF fuel (.objRest []) (skipWs rest)
      else
        match parseNum s with
        | some (n, rem) => some (.num n, rem)
        | none => none
  | fuel + 1, .arrRest acc, s =>
    match s with
    | [] => none
    | c :: rest =>
      if c = ']' then
        match acc with
        | [] => some (.arr [], rest)
        | _ => none
      else
        match parseF fuel .val s with
        | some (v, rem) =>
          match skipWs rem with
          | ']' :: rem2 => some (.arr (acc ++ [v]), rem2)
          | ',' :: rem2 => parseF fuel (.arrRest (acc ++ [v])) (skipWs rem2)
          | _ => none
        | none => none
  | fuel + 1, .objRest acc, s =>
    match s with
    | [] => none
    | c :: rest =>
      if c = rbraceC then
        match acc with
        | [] => some (.obj [], rest)
        | _ => none
      else if c = '\"' then
        match parseStrBody (rest.length + 1) rest with
        | some (key, rem) =>
          match skipWs rem with
          | ':' :: rem2 =>
            match parseF fuel .val (skipWs rem2) with
            | some (v, rem3) =>
              let acc2 := objInsert key v acc
              match skipWs rem3 with
              | c2 :: rem4 =>
                if c2 = rbraceC then some (.obj acc2, rem4)
                else if c2 = ',' then parseF fuel (.objRest acc2) (skipWs rem4)
                else none
              | [] => none
            | none => none
          | _ => none
        | none => none
      else none

/-- `json.loads`: parse a complete JSON document, rejecting trailing
non-whitespace; `none` models a raised `JSONDecodeError`. -/
def jsonLoads (s : Str) : Option JVal :=
  match parseF (s.length + 1) .val (skipWs s) with
  | some (v, rest) => if skipWs rest = [] then some v else none
  | none => none

/-- The three-backtick code-fence delimiter. -/
def fenceStr : Str := List.replicate 3 backtickC

/-- After the capture group of the fence pattern, the regex requires
optional whitespace followed by a closing fence: greedy `\s*` then a
literal fence, which (backticks not being whitespace) is equivalent to
skipping all whitespace and testing for the fence. -/
def checkClose (t : Str) : Bool := (skipWs t).take 3 = fenceStr

/-- The lazy `.*?` scan of the fence pattern
(the part matching from just after the opening brace of the capture
group): find the shortest extension ending at a closing brace that is
followed by optional whitespace and a closing fence. Returns the matched
characters (ending with that closing brace), or `none` if no extension
closes. -/
def lazyScan : Str → Option Str
  | [] => none
  | c :: rs =>
    if c = rbraceC && checkClose rs then some [c]
    else
      match lazyScan rs with
      | some g => some (c :: g)
      | none => none

/-- Attempt the part of the fence pattern after a matched opening fence:
optional literal `json` (tried first; if the text starts with `json` but
the rest fails, backtracking to the empty alternative also fails because
`j` is neither whitespace nor an opening brace, so committing is faithful),
then greedy `\s*`, then the capture group `(\{.*?\})`. Returns group 1. -/
def fenceAfter (t : Str) : Option Str :=
  let t1 := if ("json".toList).isPrefixOf t then t.drop 4 else t
  match skipWs t1 with
  | c :: rest => if c = lbraceC then (lazyScan rest).map (fun g => lbraceC :: g) else none
  | [] => none

/-- Leftmost search for the fenced-JSON pattern
(Python `re.search` over the pattern with the `json` tag optional and
`re.DOTALL`): try a full match at each successive start position, which
must begin with a fence. Returns the capture group (the braced text). -/
def fenceSearch : Str → Option Str
  | [] => none
  | c :: rest =>
    if fenceStr.isPrefixOf (c :: rest) then
      match fenceAfter ((c :: rest).drop 3) with
      | some g => some g
      | none => fenceSearch rest
    else fenceSearch rest

/-- Suffix of the text after the first occurrence of the pattern, or
`none` when the pattern does not occur. -/
def findSubSuffix (p : Str) : Str → Option Str
  | [] => if p = [] then some [] else none
  | c :: rest =>
    if p.isPrefixOf (c :: rest) then some ((c :: rest).drop p.length)
    else findSubSuffix p rest

/-- Whether the patterns occur in the text sequentially (each one at or
after the end of the previous occurrence), the matching condition of the
chained literals of the bracket-scoped fallback regex. -/
def seqContains : List Str → Str → Bool
  | [], _ => true
  | p :: ps, t =>
    match findSubSuffix p t with
    | some suffix => seqContains ps suffix
    | none => false

/-- Double-quote a key, as the fallback pattern's literals are quoted. -/
def quoteKey (k : Str) : Str := '\"' :: (k ++ ['\"'])

/-- Attempt the bracket-scoped fallback pattern
(an opening brace, then brace-free text containing the quoted keys
`cuts`, `lines`, `spots` in order, then a closing brace) at one start
position. Since the character class excludes braces, the closing brace of
any match is forced to be the first brace after the start, so the match
extent is determined. Returns the whole match. -/
def fallbackAt (t : Str) : Option Str :=
  match t with
  | [] => none
  | c :: rest =>
    if c = lbraceC then
      let seg := rest.takeWhile (fun ch => ch ≠ lbraceC && ch ≠ rbraceC)
      match rest.dropWhile (fun ch => ch ≠ lbraceC && ch ≠ rbraceC) with
      | c2 :: _ =>
        if c2 = rbraceC &&
            seqContains [quoteKey ("cuts".toList), quoteKey ("lines".toList),
              quoteKey ("spots".toList)] seg then
          some (lbraceC :: (seg ++ [rbraceC]))
        else none
      | [] => none
    else none

/-- Leftmost search for the bracket-scoped fallback pattern. -/
def fallbackSearch : Str → Option Str
  | [] => none
  | c :: rest =>
    match fallbackAt (c :: rest) with
    | some g => some g
    | none => fallbackSearch rest

/-- `extract_json_from_evaluation` of
`src/utils/consolidate_predictions_unified.py`: extract JSON from an
evaluation text that may wrap it in a markdown code block. Empty text
yields `None`; otherwise the fenced pattern's capture, else the
bracket-scoped fallback's match, else the stripped text, is passed to
`json.loads`, and a decode error yields `None`. -/
def extract_json_from_evaluation (t : Str) : Option JVal :=
  match t with
  | [] => none
  | _ =>
    match fenceSearch t with
    | some g => jsonLoads g
    | none =>
      match fallbackSearch t with
      | some g => jsonLoads g
      | none => jsonLoads (pyStrip t)

/-- Replace every occurrence of a (non-empty) pattern, Python's
`str.replace`; fuel-bounded (the input length is enough fuel since every
step consumes at least one character). -/
def replaceSubF : Nat → Str → Str → Str → Str
  | 0, _, _, s => s
  | fuel + 1, pat, rep, s =>
    match s with
    | [] => []
    | c :: rest =>
      if pat ≠ [] && pat.isPrefixOf (c :: rest) then
        rep ++ replaceSubF fuel pat rep ((c :: rest).drop pat.length)
      else c :: replaceSubF fuel pat rep rest

/-- Python `str.replace` (for a non-empty pattern). -/
def pyReplace (s pat rep : Str) : Str := replaceSubF s.length pat rep s

/-- Characters after the first colon, Python's `text.split(':', 1)[1]`
when a colon is present. -/
def afterFirstColon : Str → Str
  | [] => []
  | c :: rest => if c = ':' then rest else afterFirstColon rest

/-- The known boilerplate preambles of `clean_vlm_output`. -/
def preambles : List Str :=
  [("Okay, here's").toList, ("Here's").toList, ("Here is").toList,
    ("The answer is:").toList, ("Sure,").toList]

/-- `clean_vlm_output` of `src/04_inference/evaluate_diagrams.py`: if the
stripped, lower-cased text starts with a known preamble and a colon occurs
in the first 100 characters, drop everything up to and including the first
colon; finally strip. (`None` input, which the adapters never pass, is
outside the model.) -/
def clean_vlm_output (t : Str) : Str :=
  let t1 :=
    match preambles.find? (fun p => (pyLower p).isPrefixOf (pyLower (pyStrip t))) with
    | some _ => if (t.take 100).contains ':' then pyStrip (afterFirstColon t) else t
    | none => t
  pyStrip t1

/-- Render a natural number in decimal (for the `HTTP {status}` message). -/
def natRepr (n : Nat) : Str := (Nat.repr n).toList

/-- Static model configuration (the `MODELS` table of
`src/04_inference/evaluate_diagrams.py`). -/
structure ModelConfig where
  model_id : Str
  api : Str
  max_tokens : Nat

/-- The `MODELS` table: model name to configuration. -/
def MODELS : List (Str × ModelConfig) :=
  [(("claude").toList, ⟨("claude-sonnet-4-5-20250929").toList, ("anthropic").toList, 2048⟩),
   (("gemini").toList, ⟨("google/gemini-3-pro-preview").toList, ("openrouter").toList, 8192⟩),
   (("gemma").toList, ⟨("gemma-3-27b-it").toList, ("academiccloud").toList, 2048⟩),
   (("qwen").toList, ⟨("qwen2.5-vl-72b-instruct").toList, ("academiccloud").toList, 2048⟩)]

/-- Process environment credentials read by the driver at start-up
(`ANTHROPIC_API_KEY`, `GOOGLE_API_KEY`, `ACADEMICCLOUD_API_KEY`,
`OPENROUTER_API_KEY`); `none` models an unset variable. -/
structure Env where
  anthropicKey : Option Str
  googleKey : Option Str
  academiccloudKey : Option Str
  openrouterKey : Option Str

/-- The MIME type an adapter infers from the (already extracted) file
suffix: shared by `evaluate_with_claude` (lines 163-164),
`evaluate_with_gemini` (215-216), `evaluate_with_openrouter` (349-350) and
`evaluate_with_academiccloud` (420-421), which all contain the identical
expression `'image/jpeg' if ext in ['.jpg', '.jpeg'] else 'image/png'`
applied to `image_path.suffix.lower()`. -/
def media_type_for (suffix : Str) : Str :=
  let ext := pyLower suffix
  if ext = (".jpg").toList || ext = (".jpeg").toList then ("image/jpeg").toList
  else ("image/png").toList

/-- Normalized adapter result (the dict every `evaluate_with_*` function
returns); wall-clock timestamps are outside the model. -/
structure AdapterResult where
  success : Bool
  response : Option Str
  error : Option Str
  model : Str
deriving DecidableEq

/-- One part of a Gemini candidate's content; `text` is
`part.get('text', '')`, `none` modelling a missing key. -/
structure GeminiPart where
  text : Option Str

/-- A Gemini candidate's `content` member: `parts` is `none` when the
`'parts'` key is absent. -/
structure GeminiContent where
  parts : Option (List GeminiPart)

/-- One entry of the Gemini response's `candidates` array; `content` is
`none` when the `'content'` key is absent. -/
structure GeminiCandidate where
  content : Option GeminiContent

/-- The parsed Gemini response body; `candidates` is `none` when the key
is absent, and `reprS` carries the Python textual rendering of the parsed
object used in the `No text in response` message. -/
structure GeminiJson where
  candidates : Option (List GeminiCandidate)
  reprS : Str

/-- What the HTTP layer did for one Gemini request: either `requests.post`
raised (network failure, timeout), or a response arrived with a status
code, a body text, and a `.json()` that either parsed or raised (malformed
body). -/
inductive GeminiOutcome where
  | raised (msg : Str)
  | responded (status : Nat) (body : Str) (parsed : Except Str GeminiJson)

/-- `evaluate_with_gemini` of `src/04_inference/evaluate_diagrams.py`,
as a function of the HTTP outcome (the whole body runs inside
`try ... except`, so every raise is mapped to a failed result; the model
therefore returns a result in every case by construction). A non-200
status yields `HTTP {status}: {body}`; a malformed body yields the decode
error's message; absent candidates/content/parts yield the
`No text in response` message; an empty `parts` list makes `parts[0]`
raise an IndexError whose message is `list index out of range`, caught by
the same `except`. -/
def evaluate_with_gemini (model_id : Str) (outcome : GeminiOutcome) : AdapterResult :=
  match outcome with
  | .raised msg => ⟨false, none, some msg, model_id⟩
  | .responded status body parsed =>
    if status ≠ 200 then
      ⟨false, none, some (("HTTP ").toList ++ natRepr status ++ (": ").toList ++ body), model_id⟩
    else
      match parsed with
      | .error msg => ⟨false, none, some msg, model_id⟩
      | .ok j =>
        match j.candidates with
        | some (cand :: _) =>
          match cand.content with
          | some content =>
            match content.parts with
            | some (part :: _) =>
              ⟨true, some (clean_vlm_output (part.text.getD [])), none, model_id⟩
            | some [] => ⟨false, none, some (("list index out of range").toList), model_id⟩
            | none => ⟨false, none, some (("No text in response: ").toList ++ j.reprS), model_id⟩
          | none => ⟨false, none, some (("No text in response: ").toList ++ j.reprS), model_id⟩
        | _ => ⟨false, none, some (("No text in response: ").toList ++ j.reprS), model_id⟩

/-- One diagram segment row as loaded by `load_diagram_segments`, reduced
to what the driver loop reads: the identity fields and whether the crop
file exists on disk at evaluation time. -/
structure Diagram where
  manuscript_id : Str
  page_filename : Str
  segment_index : Str
  cropExists : Bool
deriving DecidableEq

/-- The unique diagram id the loop builds:
`{manuscript_id}_{page_filename without .jpg}_{segment_index}`. -/
def diagramId (d : Diagram) : Str :=
  d.manuscript_id ++ [ '_' ] ++ pyReplace d.page_filename ((".jpg").toList) []
    ++ [ '_' ] ++ d.segment_index

/-- The per-diagram output file name, `{diagram_id}.json`. -/
def outName (d : Diagram) : Str := diagramId d ++ (".json").toList

/-- One entry of the run summary's `results` array. -/
structure SummaryEntry where
  diagram_id : Str
  success : Bool
  response : Option Str
  error : Option Str

/-- The driver loop's evolving state: the file names present in the run's
output directory, the two counters, the `results` list, and the list of
diagram ids for which the adapter was actually invoked (the network
calls). -/
structure RunState where
  fs : List Str
  successful : Nat
  failed : Nat
  results : List SummaryEntry
  calls : List Str

/-- Initial state over the files already present in the run directory. -/
def initState (fs0 : List Str) : RunState :=
  ⟨fs0, 0, 0, [], []⟩

/-- One iteration of the driver loop of `process_diagrams`
(lines 556-606): a missing crop counts as failed; an already-present
output file counts as successful and skips the adapter; otherwise the
adapter (a fixed function of the diagram, modelling the network as a
deterministic oracle) is invoked, a successful result writes the output
file, and either way the outcome is appended to `results`. -/
def stepDiagram (adapter : Diagram → AdapterResult) (st : RunState) (d : Diagram) : RunState :=
  if d.cropExists = false then
    { st with failed := st.failed + 1 }
  else if st.fs.contains (outName d) then
    { st with successful := st.successful + 1 }
  else
    let r := adapter d
    if r.success then
      { st with
        fs := st.fs ++ [outName d],
        successful := st.successful + 1,
        results := st.results ++ [⟨diagramId d, r.success, r.response, r.error⟩],
        calls := st.calls ++ [diagramId d] }
    else
      { st with
        failed := st.failed + 1,
        results := st.results ++ [⟨diagramId d, r.success, r.response, r.error⟩],
        calls := st.calls ++ [diagramId d] }

/-- The driver loop over all loaded diagram segments. -/
def runLoop (adapter : Diagram → AdapterResult) (ds : List Diagram) (st : RunState) : RunState :=
  ds.foldl (stepDiagram adapter) st

/-- The run summary written at the end of `process_diagrams`. -/
structure RunSummary where
  model : Str
  prompt : Str
  total_diagrams : Nat
  successful : Nat
  failed : Nat
  results : List SummaryEntry

/-- Outcome of the pre-flight section of `process_diagrams`
(lines 500-524): unknown model name, missing credential for the selected
provider, or proceed with the configuration. Only the `anthropic` and
`google` API families are key-checked there; the other families
initialize no client before the loop. -/
inductive Preflight where
  | unknownModel (msg : Str)
  | missingKey (msg : Str)
  | proceed (cfg : ModelConfig)

/-- The pre-flight checks of `process_diagrams`: model-name validation
against `MODELS`, then the provider-specific credential checks. -/
def preflightCheck (env : Env) (model_name : Str) : Preflight :=
  match MODELS.find? (fun p => p.1 = model_name) with
  | none => .unknownModel (("ERROR: Unknown model ").toList ++ model_name)
  | some (_, cfg) =>
    if cfg.api = ("anthropic").toList then
      if env.anthropicKey.isNone then .missingKey (("ERROR: ANTHROPIC_API_KEY not set!").toList)
      else .proceed cfg
    else if cfg.api = ("google").toList then
      if env.googleKey.isNone then .missingKey (("ERROR: GOOGLE_API_KEY not set!").toList)
      else .proceed cfg
    else .proceed cfg

/-- Result of one `process_diagrams` invocation: aborted during pre-flight
(before loading segments, before any adapter invocation), or completed
with the summary, the final output-directory contents and the list of
adapter invocations. -/
inductive RunOutcome where
  | abortedConfig (msg : Str)
  | completed (summary : RunSummary) (finalFs : List Str) (calls : List Str)

/-- `process_diagrams` of `src/04_inference/evaluate_diagrams.py`,
abstracted over the prompt text, the loaded segments, the files already
present in the run directory and the adapter oracle. -/
def process_diagrams (env : Env) (model_name : Str) (prompt : Str)
    (adapter : Diagram → AdapterResult) (ds : List Diagram) (fs0 : List Str) : RunOutcome :=
  match preflightCheck env model_name with
  | .unknownModel msg => .abortedConfig msg
  | .missingKey msg => .abortedConfig msg
  | .proceed cfg =>
    let st := runLoop adapter ds (initState fs0)
    .completed ⟨cfg.model_id, prompt, ds.length, st.successful, st.failed, st.results⟩ st.fs st.calls

/-- Per-evaluation-type configuration of the consolidator (the
`EVALUATION_TYPES` table): whether responses are parsed as JSON and the
optional prompt filter. -/
structure EvalConfig where
  parse_json : Bool
  prompt_filter : Option Str

/-- One per-diagram result file inside a run directory, reduced to the
fields the consolidator reads: the file stem (the diagram id), and the
`prompt`, `evaluation`, `model` and `timestamp` members of its JSON body. -/
structure RFile where
  stem : Str
  prompt : Str
  evaluation : Str
  model_id : Str
  timestamp : Str
deriving DecidableEq

/-- The file's name, `{stem}.json`. -/
def fname (f : RFile) : Str := f.stem ++ (".json").toList

/-- Whether the glob pattern `hou02614c00458*.json` returns the file. -/
def globOK (f : RFile) : Bool := (("hou02614c00458").toList).isPrefixOf (fname f)

/-- One run directory of a model: its name (`eval_{timestamp}`) and the
files it contains, in directory-listing order. -/
structure RunDir where
  name : Str
  files : List RFile
deriving DecidableEq

/-- A consolidated prediction value: a parsed JSON structure (possibly
`none` after a parse failure) for `parse_json` levels, or the raw response
text for free-text levels. -/
inductive PredVal where
  | parsed (v : Option JVal)
  | rawText (s : Str)

/-- One row of the consolidated predictions file. -/
structure CEval where
  diagram_id : Str
  model : Str
  model_id : Str
  prediction : PredVal
  timestamp : Str
  raw_response : Option Str

/-- Build the consolidated row for one result file. -/
def mkCEval (cfg : EvalConfig) (modelName : Str) (f : RFile) : CEval :=
  { diagram_id := f.stem,
    model := modelName,
    model_id := f.model_id,
    prediction :=
      if cfg.parse_json then .parsed (extract_json_from_evaluation f.evaluation)
      else .rawText f.evaluation,
    timestamp := f.timestamp,
    raw_response := if cfg.parse_json then some f.evaluation else none }

/-- Whether the prompt filter (when configured) accepts the file's stored
prompt (`prompt.startswith(...)`). -/
def promptOK (cfg : EvalConfig) (f : RFile) : Bool :=
  match cfg.prompt_filter with
  | some flt => flt.isPrefixOf f.prompt
  | none => true

/-- The reserved summary file name. -/
def sumName : Str := ("summary.json").toList

/-- One iteration of the consolidator's file loop
(`consolidate_predictions`, lines 124-171): skip files the glob does not
return, skip `summary.json`, skip diagram ids already seen for this model,
skip files rejected by the prompt filter; otherwise mark the id seen and
append the row. The state is the seen-id set paired with the output
accumulated so far. -/
def consolStep (cfg : EvalConfig) (modelName : Str) (st : List Str × List CEval)
    (f : RFile) : List Str × List CEval :=
  if ¬ globOK f then st
  else if fname f = sumName then st
  else if st.1.contains f.stem then st
  else if ¬ promptOK cfg f then st
  else (st.1 ++ [f.stem], st.2 ++ [mkCEval cfg modelName f])

/-- Name order on run directories (Python compares the path strings). -/
def dirLe (a b : RunDir) : Prop := lexLe a.name b.name = true

/-- `dirLe` is decidable. -/
instance : DecidableRel dirLe := fun _ _ => inferInstanceAs (Decidable (_ = true))

/-- Sort run directories by name, as `sorted(model_dir.glob("eval_*"))`
does (directory names being timestamped `eval_YYYYMMDD_HHMMSS`,
lexicographic order is chronological order; `insertionSort` models
Python's deterministic `sorted`). -/
def sortDirs (dirs : List RunDir) : List RunDir :=
  List.insertionSort dirLe dirs

/-- Consolidate one model's run directories for one evaluation type: glob
the `eval_*` directories, sort them, and fold the file loop over every
file of every directory. -/
def consolidateModel (cfg : EvalConfig) (modelName : Str) (dirs : List RunDir) : List CEval :=
  let evalDirs := sortDirs (dirs.filter (fun d => (("eval_").toList).isPrefixOf d.name))
  (evalDirs.foldl (fun st dir => dir.files.foldl (consolStep cfg modelName) st) ([], [])).2

/-- Round half to even at integer precision (Python's `round`); floats are
idealized as exact rationals, which agrees on every value the metrics
scripts produce at the printed precision. -/
def roundHalfEven (x : ℚ) : ℤ :=
  let f := ⌊x⌋
  if x - f < 1/2 then f
  else if (1 : ℚ)/2 < x - f then f + 1
  else if f % 2 = 0 then f else f + 1

/-- Python `round(x, 2)`. -/
def round2 (x : ℚ) : ℚ := (roundHalfEven (x * 100) : ℚ) / 100

namespace EvalGT

/-- One ground-truth annotation of
`src/06_analysis/evaluate_against_ground_truth.py`, represented by the
five leaf values the comparator reads (`gt['cuts']['count']` and so on);
JSON `null` is `JVal.null`, the same Python value `None` that a missing
key would produce on the prediction side. -/
structure GTEntry where
  cuts_count : JVal
  cuts_nested : JVal
  lines_count : JVal
  lines_branching : JVal
  spots_count : JVal

/-- `load_ground_truth` (lines 33-50): entries whose `cuts.count` is
`None` are warned about and skipped; every other entry is kept, keyed by
file stem. The input models the directory listing of per-diagram JSON
files. -/
def load_ground_truth (raw : List (Str × GTEntry)) : List (Str × GTEntry) :=
  raw.filter (fun p => match p.2.cuts_count with | .null => false | _ => true)

/-- One parsed model prediction, represented by the five leaf values the
comparator reads via `pred.get('cuts', {}).get('count')` etc.; a missing
key yields Python `None`, i.e. `JVal.null`. -/
structure PredEntry where
  cuts_count : JVal
  cuts_nested : JVal
  lines_count : JVal
  lines_branching : JVal
  spots_count : JVal

/-- One row of the per-diagram results of `evaluate_model`. -/
structure DiagRow where
  diagram_id : Str
  cuts_count_match : Bool
  cuts_nested_match : Bool
  lines_count_match : Bool
  lines_branching_match : Bool
  spots_count_match : Bool
  exact_match : Bool

/-- The accumulator dict of `evaluate_model`. -/
structure MResults where
  model : Str
  total_diagrams : Nat
  evaluated_diagrams : Nat
  cuts_count_correct : Nat
  cuts_nested_correct : Nat
  lines_count_correct : Nat
  lines_branching_correct : Nat
  spots_count_correct : Nat
  exact_match : Nat
  missing_evaluations : List Str
  per_diagram : List DiagRow

/-- One iteration of `evaluate_model`'s loop over the ground-truth dict:
a diagram with no model evaluation is recorded under
`missing_evaluations`; otherwise the five fields are compared with
Python `==` and the counters updated. -/
def evalStep (model_evals : List (Str × PredEntry)) (r : MResults) (g : Str × GTEntry) :
    MResults :=
  match model_evals.find? (fun p => p.1 = g.1) with
  | none => { r with missing_evaluations := r.missing_evaluations ++ [g.1] }
  | some (_, pred) =>
    let m1 := pyEq pred.cuts_count g.2.cuts_count
    let m2 := pyEq pred.cuts_nested g.2.cuts_nested
    let m3 := pyEq pred.lines_count g.2.lines_count
    let m4 := pyEq pred.lines_branching g.2.lines_branching
    let m5 := pyEq pred.spots_count g.2.spots_count
    let ex := m1 && m2 && m3 && m4 && m5
    { r with
      evaluated_diagrams := r.evaluated_diagrams + 1,
      cuts_count_correct := r.cuts_count_correct + (if m1 then 1 else 0),
      cuts_nested_correct := r.cuts_nested_correct + (if m2 then 1 else 0),
      lines_count_correct := r.lines_count_correct + (if m3 then 1 else 0),
      lines_branching_correct := r.lines_branching_correct + (if m4 then 1 else 0),
      spots_count_correct := r.spots_count_correct + (if m5 then 1 else 0),
      exact_match := r.exact_match + (if ex then 1 else 0),
      per_diagram := r.per_diagram ++ [⟨g.1, m1, m2, m3, m4, m5, ex⟩] }

/-- `evaluate_model` (lines 73-147). -/
def evaluate_model (model_name : Str) (model_evals : List (Str × PredEntry))
    (ground_truth : List (Str × GTEntry)) : MResults :=
  ground_truth.foldl (evalStep model_evals)
    ⟨model_name, ground_truth.length, 0, 0, 0, 0, 0, 0, 0, [], []⟩

/-- The per-model metrics row of `calculate_metrics`; `evaluated` is the
`"{n}/{total}"` pair. -/
structure Metrics where
  model : Str
  evaluated : Nat × Nat
  coverage : ℚ
  exact_match : ℚ
  cuts_count_acc : ℚ
  cuts_nested_acc : ℚ
  lines_count_acc : ℚ
  lines_branching_acc : ℚ
  spots_count_acc : ℚ

/-- `calculate_metrics` (lines 150-166): `None` when no diagram was
evaluated; otherwise coverage is over the ground-truth total and every
accuracy is over the evaluated count. -/
def calculate_metrics (r : MResults) : Option Metrics :=
  let n := r.evaluated_diagrams
  if n = 0 then none
  else some
    { model := r.model,
      evaluated := (n, r.total_diagrams),
      coverage := round2 (100 * (n : ℚ) / (r.total_diagrams : ℚ)),
      exact_match := round2 (100 * (r.exact_match : ℚ) / (n : ℚ)),
      cuts_count_acc := round2 (100 * (r.cuts_count_correct : ℚ) / (n : ℚ)),
      cuts_nested_acc := round2 (100 * (r.cuts_nested_correct : ℚ) / (n : ℚ)),
      lines_count_acc := round2 (100 * (r.lines_count_correct : ℚ) / (n : ℚ)),
      lines_branching_acc := round2 (100 * (r.lines_branching_correct : ℚ) / (n : ℚ)),
      spots_count_acc := round2 (100 * (r.spots_count_correct : ℚ) / (n : ℚ)) }

end EvalGT

namespace MorphMetrics

/-- One ground-truth annotation of
`src/06_analysis/calculate_morphological_metrics.py`, represented by the
six leaf values the comparator reads. Its `load_ground_truth`
(lines 12-26) performs no completeness filtering. -/
structure GTEntry where
  cuts_count : JVal
  cuts_nested : JVal
  lines_count : JVal
  lines_branching : JVal
  spots_count : JVal
  spots_labels : List Str

/-- `load_ground_truth` (lines 12-26): re-keys the consolidated
ground-truth entries by diagram id, keeping every entry unchanged — in
particular an entry with `cuts.count == null` is kept. -/
def load_ground_truth (diagrams : List (Str × GTEntry)) : List (Str × GTEntry) :=
  diagrams

/-- One parsed prediction for this comparator, again by its leaf values;
`spots_labels` models `prediction.get('spots', {}).get('labels', [])`
(the empty list when the key is missing or the value is null — both make
`normalize_labels` return the empty set). -/
structure PredEntry where
  cuts_count : JVal
  cuts_nested : JVal
  lines_count : JVal
  lines_branching : JVal
  spots_count : JVal
  spots_labels : List Str

/-- `normalize_labels` (lines 37-41): lower-case and whitespace-trim each
label and collect them into a set; a falsy argument yields the empty
set. -/
def normalize_labels (labels : List Str) : Finset Str :=
  match labels with
  | [] => ∅
  | _ => (labels.map (fun l => pyStrip (pyLower l))).toFinset

/-- The comparison dict of `compare_prediction`: one boolean per scored
field plus the per-diagram accuracy (matched fields over six). -/
structure CompRes where
  cuts_count : Bool
  cuts_nested : Bool
  lines_count : Bool
  lines_branching : Bool
  spots_count : Bool
  spots_labels : Bool
  accuracy : ℚ

/-- `compare_prediction` (lines 44-90) on a truthy prediction: scalar
fields use Python `==`, the label field compares normalized label sets. -/
def compare_prediction (p : PredEntry) (g : GTEntry) : CompRes :=
  let c1 := pyEq p.cuts_count g.cuts_count
  let c2 := pyEq p.cuts_nested g.cuts_nested
  let c3 := pyEq p.lines_count g.lines_count
  let c4 := pyEq p.lines_branching g.lines_branching
  let c5 := pyEq p.spots_count g.spots_count
  let c6 := decide (normalize_labels p.spots_labels = normalize_labels g.spots_labels)
  { cuts_count := c1, cuts_nested := c2, lines_count := c3,
    lines_branching := c4, spots_count := c5, spots_labels := c6,
    accuracy := (((if c1 then 1 else 0) + (if c2 then 1 else 0) + (if c3 then 1 else 0)
      + (if c4 then 1 else 0) + (if c5 then 1 else 0) + (if c6 then 1 else 0) : ℚ)) / 6 }

/-- `compare_prediction`'s falsy guard (`if not prediction: return None`),
with `none` modelling a null or empty prediction. -/
def compare_prediction_opt (p : Option PredEntry) (g : GTEntry) : Option CompRes :=
  p.map (fun pe => compare_prediction pe g)

/-- One row of the consolidated predictions input of `calculate_metrics`. -/
structure PredRow where
  diagram_id : Str
  model : Str
  prediction : Option PredEntry

/-- The comparison-collection loop of `calculate_metrics` (lines 102-135):
skip rows without ground truth, skip rows whose prediction failed to
parse, compare the rest; every comparison is tagged with its model. -/
def comparisonRows (gts : List (Str × GTEntry)) (preds : List PredRow) :
    List (Str × CompRes) :=
  preds.filterMap (fun row =>
    match gts.find? (fun g => g.1 = row.diagram_id) with
    | none => none
    | some g =>
      match compare_prediction_opt row.prediction g.2 with
      | none => none
      | some comp => some (row.model, comp))

/-- First-seen deduplication of the model names, the key order of the
`defaultdict` grouping. -/
def dedupStr (l : List Str) : List Str :=
  l.foldl (fun acc m => if acc.contains m then acc else acc ++ [m]) []

/-- One aggregated per-model row of `calculate_metrics`. -/
structure AggRow where
  model : Str
  num_evaluations : Nat
  avg_accuracy : ℚ
  cuts_count_acc : ℚ
  cuts_nested_acc : ℚ
  lines_count_acc : ℚ
  lines_branching_acc : ℚ
  spots_count_acc : ℚ
  spots_labels_acc : ℚ

/-- Aggregate the comparisons of one model (lines 139-152): `n` is the
number of collected comparisons and every percentage divides by `n`. -/
def aggregateFor (rows : List (Str × CompRes)) (m : Str) : AggRow :=
  let cs := (rows.filter (fun r => r.1 = m)).map (fun r => r.2)
  let n := cs.length
  { model := m,
    num_evaluations := n,
    avg_accuracy := if n = 0 then 0 else round2 (100 * ((cs.map (fun c => c.accuracy)).sum) / n),
    cuts_count_acc := if n = 0 then 0 else round2 (100 * ((cs.countP (fun c => c.cuts_count)) : ℚ) / n),
    cuts_nested_acc := if n = 0 then 0 else round2 (100 * ((cs.countP (fun c => c.cuts_nested)) : ℚ) / n),
    lines_count_acc := if n = 0 then 0 else round2 (100 * ((cs.countP (fun c => c.lines_count)) : ℚ) / n),
    lines_branching_acc := if n = 0 then 0 else round2 (100 * ((cs.countP (fun c => c.lines_branching)) : ℚ) / n),
    spots_count_acc := if n = 0 then 0 else round2 (100 * ((cs.countP (fun c => c.spots_count)) : ℚ) / n),
    spots_labels_acc := if n = 0 then 0 else round2 (100 * ((cs.countP (fun c => c.spots_labels)) : ℚ) / n) }

/-- `calculate_metrics` (lines 93-154) of
`src/06_analysis/calculate_morphological_metrics.py`. -/
def calculate_metrics (gts : List (Str × GTEntry)) (preds : List PredRow) : List AggRow :=
  let rows := comparisonRows gts preds
  (dedupStr (rows.map (fun r => r.1))).map (aggregateFor rows)

end MorphMetrics

namespace EvalGT

/-- The predicate "this ground-truth diagram has a model evaluation". -/
def hasEval (evals : List (Str × PredEntry)) (g : Str × GTEntry) : Bool :=
  (evals.find? (fun p => p.1 = g.1)).isSome

/-- The predicate "evaluated and the given field matches". -/
def fieldHit (evals : List (Str × PredEntry)) (f : PredEntry → GTEntry → Bool)
    (g : Str × GTEntry) : Bool :=
  ((evals.find? (fun p => p.1 = g.1)).map (fun pr => f pr.2 g.2)).getD false

/-- The five scalar-field match tests of `evaluate_model`, plus the
conjunction that defines its `exact_match`. -/
def cutsCountHit (p : PredEntry) (g : GTEntry) : Bool := pyEq p.cuts_count g.cuts_count

/-- Cuts-nested match test. -/
def cutsNestedHit (p : PredEntry) (g : GTEntry) : Bool := pyEq p.cuts_nested g.cuts_nested

/-- Lines-count match test. -/
def linesCountHit (p : PredEntry) (g : GTEntry) : Bool := pyEq p.lines_count g.lines_count

/-- Lines-branching match test. -/
def linesBranchingHit (p : PredEntry) (g : GTEntry) : Bool :=
  pyEq p.lines_branching g.lines_branching

/-- Spots-count match test. -/
def spotsCountHit (p : PredEntry) (g : GTEntry) : Bool := pyEq p.spots_count g.spots_count

/-- All five fields match simultaneously. -/
def exactHit (p : PredEntry) (g : GTEntry) : Bool :=
  cutsCountHit p g && cutsNestedHit p g && linesCountHit p g && linesBranchingHit p g
    && spotsCountHit p g

end EvalGT

/-- C3 counterexample input: one ground-truth entry whose `cuts.count` is
null, for the `calculate_morphological_metrics` comparator. -/
def c3GT : List (Str × MorphMetrics.GTEntry) :=
  [(("d1").toList, ⟨.null, .bool true, .num 1, .bool false, .num 2, [("a").toList]⟩)]

/-- C3 counterexample input: one parsed prediction for that diagram. -/
def c3Preds : List MorphMetrics.PredRow :=
  [⟨("d1").toList, ("M").toList,
    some ⟨.num 5, .bool true, .num 1, .bool false, .num 2, [("a").toList]⟩⟩]

/-- C4 witness input: 27 ground-truth diagrams. -/
def c4GT : List (Str × EvalGT.GTEntry) :=
  (List.range 27).map (fun i =>
    ((Nat.repr i).toList, ⟨.num 1, .bool true, .num 2, .bool false, .num 3⟩))

/-- C4 witness input: predictions for 10 of them, 9 matching on
`lines.count`. -/
def c4Evals : List (Str × EvalGT.PredEntry) :=
  (List.range 10).map (fun i =>
    ((Nat.repr i).toList,
      ⟨.num 1, .bool true, if i < 9 then .num 2 else .num 99, .bool false, .num 3⟩))

namespace MorphMetrics

/-- The per-label normalization, `label.lower().strip()`. -/
def normLabel (s : Str) : Str := pyStrip (pyLower s)

end MorphMetrics

/-- The overall acceptance condition of the consolidator's file loop: the
file is returned by the glob, is not `summary.json`, and passes the
prompt filter. Files failing it never change the loop state, so the loop
is equivalent to first filtering the stream by this condition. -/
def passes (cfg : EvalConfig) (f : RFile) : Bool :=
  globOK f && !(fname f = sumName) && promptOK cfg f

/-- First-seen deduplication by file stem with an initial seen set: the
part of the consolidator's loop that remains once rejected files are
filtered away. -/
def dedupF : List RFile → List Str → List RFile
  | [], _ => []
  | f :: l, seen =>
    if seen.contains f.stem then dedupF l seen
    else f :: dedupF l (seen ++ [f.stem])

/-- The spec's fenced wrapping of a JSON text. -/
def wrapFence (s : Str) : Str :=
  ("```json\n").toList ++ s ++ ("\n```").toList

/-- The text following the object in the fenced wrapping. -/
def fenceTail : Str := '\n' :: fenceStr

/-- Whether the text contains, before its final character, a closing
brace followed (after optional whitespace, continuing into the closing
fence appended by the wrapping) by a fence — the situation that makes the
lazy scan of the fence pattern stop early. -/
def prematureClose : Str → Bool
  | [] => false
  | c :: rs =>
    (c = rbraceC && !rs.isEmpty && checkClose (rs ++ fenceTail)) || prematureClose rs

/-- Whether the text contains a triple backtick anywhere. -/
def containsFence : Str → Bool
  | [] => false
  | c :: rest => fenceStr.isPrefixOf (c :: rest) || containsFence rest

/-- C8 counterexample input: a valid morphological JSON object one of
whose labels contains a closing brace followed by a fence. -/
def c8Bad : Str :=
  ("\x7b\"cuts\":\x7b\"count\":1,\"nested\":false\x7d,\"lines\":\x7b\"count\":0,\"branching\":false\x7d,\"spots\":\x7b\"count\":1,\"labels\":[\"a\x7d```b\"]\x7d\x7d").toList

/-- C8 witness input: the spec's example object. -/
def c8Good : Str :=
  ("\x7b\"cuts\":\x7b\"count\":2,\"nested\":true\x7d,\"lines\":\x7b\"count\":1,\"branching\":false\x7d,\"spots\":\x7b\"count\":2,\"labels\":[\"man\",\"wounded\"]\x7d\x7d").toList

/-- C8 witness input: its parsed structure. -/
def c8GoodVal : JVal :=
  .obj [(("cuts").toList, .obj [(("count").toList, .num 2), (("nested").toList, .bool true)]),
        (("lines").toList, .obj [(("count").toList, .num 1), (("branching").toList, .bool false)]),
        (("spots").toList, .obj [(("count").toList, .num 2),
          (("labels").toList, .arr [.str (("man").toList), .str (("wounded").toList)])])]

/-- Unfolding lemma for `lexLe` on two cons cells. -/
theorem lexLe_cons_iff {x y : Char} {xs ys : Str} :
    lexLe (x :: xs) (y :: ys) = true ↔
      x.toNat < y.toNat ∨ (x.toNat = y.toNat ∧ lexLe xs ys = true) := by
  show (if x.toNat < y.toNat then true
      else if y.toNat < x.toNat then false else lexLe xs ys) = true ↔ _
  split_ifs with h1 h2
  · simp [h1]
  · simp only [Bool.false_eq_true, false_iff]
    intro h
    rcases h with h | ⟨h, _⟩ <;> omega
  · have hx : x.toNat = y.toNat := by omega
    simp [hx, h1]

/-- `lexLe` is total. -/
theorem lexLe_total (a b : Str) : lexLe a b = true ∨ lexLe b a = true := by
  induction a generalizing b with
  | nil => left; rfl
  | cons x xs ih =>
    cases b with
    | nil => right; rfl
    | cons y ys =>
      rcases Nat.lt_trichotomy x.toNat y.toNat with h | h | h
      · left; exact lexLe_cons_iff.2 (Or.inl h)
      · rcases ih ys with h' | h'
        · left; exact lexLe_cons_iff.2 (Or.inr ⟨h, h'⟩)
        · right; exact lexLe_cons_iff.2 (Or.inr ⟨h.symm, h'⟩)
      · right; exact lexLe_cons_iff.2 (Or.inl h)

/-- `lexLe` is transitive. -/
theorem lexLe_trans {a b c : Str} (hab : lexLe a b = true) (hbc : lexLe b c = true) :
    lexLe a c = true := by
  induction a generalizing b c with
  | nil => rfl
  | cons x xs ih =>
    cases b with
    | nil => simp [lexLe] at hab
    | cons y ys =>
      cases c with
      | nil => simp [lexLe] at hbc
      | cons z zs =>
        rcases lexLe_cons_iff.1 hab with h1 | ⟨h1, h1'⟩ <;>
          rcases lexLe_cons_iff.1 hbc with h2 | ⟨h2, h2'⟩
        · exact lexLe_cons_iff.2 (Or.inl (by omega))
        · exact lexLe_cons_iff.2 (Or.inl (by omega))
        · exact lexLe_cons_iff.2 (Or.inl (by omega))
        · exact lexLe_cons_iff.2 (Or.inr ⟨by omega, ih h1' h2'⟩)

/-- `dirLe` is total. -/
instance : IsTotal RunDir dirLe := ⟨fun a b => lexLe_total a.name b.name⟩

/-- `dirLe` is transitive. -/
instance : IsTrans RunDir dirLe := ⟨fun _ _ _ hab hbc => lexLe_trans hab hbc⟩

/-- `lexLe` is antisymmetric. -/
theorem lexLe_antisymm {a b : Str} (hab : lexLe a b = true) (hba : lexLe b a = true) :
    a = b := by
  induction a generalizing b with
  | nil =>
    cases b with
    | nil => rfl
    | cons y ys => simp [lexLe] at hba
  | cons x xs ih =>
    cases b with
    | nil => simp [lexLe] at hab
    | cons y ys =>
      rcases lexLe_cons_iff.1 hab with h1 | ⟨h1, h1'⟩ <;>
        rcases lexLe_cons_iff.1 hba with h2 | ⟨h2, h2'⟩ <;>
        try omega
      have hxy : x = y := Char.ext (by
        have : x.val.toNat = y.val.toNat := h1
        exact UInt32.toNat.inj this)
      rw [hxy, ih h1' h2']

example : jsonLoads (" null ".toList) = some .null := rfl

example : jsonLoads ("[1, -2, true]".toList) = some (.arr [.num 1, .num (-2), .bool true]) := rfl

example : jsonLoads ("\x7b\"a\": 1, \"b\": [\"x\"]\x7d".toList) =
    some (.obj [(("a".toList), .num 1), (("b".toList), .arr [.str ("x".toList)])]) := rfl

example : jsonLoads ("\x7b\"a\": 1".toList) = none := rfl

example : jsonLoads ("01".toList) = none := rfl

example : pyEq (.bool true) (.num 1) = true := by decide

example : pyEq (.obj [(("a".toList), .num 1), (("b".toList), .num 2)])
    (.obj [(("b".toList), .num 2), (("a".toList), .num 1)]) = true := by decide

example :
    extract_json_from_evaluation (("```json\n\x7b\"a\": 1\x7d\n```").toList) =
      some (.obj [(("a".toList), .num 1)]) := rfl

example :
    extract_json_from_evaluation (("\x7b\"a\": 1\x7d").toList) =
      some (.obj [(("a".toList), .num 1)]) := rfl

example : extract_json_from_evaluation (("hello").toList) = none := rfl

example :
    extract_json_from_evaluation
      (("I see \x7b\"cuts\": 1, \"lines\": 2, \"spots\": 3\x7d here").toList) =
      some (.obj [(("cuts".toList), .num 1), (("lines".toList), .num 2),
        (("spots".toList), .num 3)]) := rfl

/-- Each driver-loop iteration increments exactly one of the two
counters. -/
theorem stepDiagram_counters (a : Diagram → AdapterResult) (st : RunState) (d : Diagram) :
    (stepDiagram a st d).successful + (stepDiagram a st d).failed
      = st.successful + st.failed + 1 := by
  by_cases h1 : d.cropExists = false
  · simp [stepDiagram, h1]; omega
  · by_cases h2 : outName d ∈ st.fs
    · simp [stepDiagram, h1, h2]; omega
    · by_cases h3 : (a d).success = true
      · simp [stepDiagram, h1, h2, h3]; omega
      · simp [stepDiagram, h1, h2, h3]; omega

/-- The loop's counters sum to the initial sum plus the number of
processed segments. -/
theorem runLoop_counters (a : Diagram → AdapterResult) :
    ∀ (ds : List Diagram) (st : RunState),
      (runLoop a ds st).successful + (runLoop a ds st).failed
        = st.successful + st.failed + ds.length := by
  intro ds
  induction ds with
  | nil => intro st; simp [runLoop]
  | cons d rest ih =>
    intro st
    show (runLoop a rest (stepDiagram a st d)).successful
        + (runLoop a rest (stepDiagram a st d)).failed = _
    rw [ih (stepDiagram a st d), stepDiagram_counters]
    simp [List.length_cons]; omega

/-- One loop iteration leaves the output directory unchanged or adds
exactly the diagram's output file. -/
theorem stepDiagram_fs (a : Diagram → AdapterResult) (st : RunState) (d : Diagram) :
    (stepDiagram a st d).fs = st.fs ∨ (stepDiagram a st d).fs = st.fs ++ [outName d] := by
  by_cases h1 : d.cropExists = false
  · left; simp [stepDiagram, h1]
  · by_cases h2 : outName d ∈ st.fs
    · left; simp [stepDiagram, h1, h2]
    · by_cases h3 : (a d).success = true
      · right; simp [stepDiagram, h1, h2, h3]
      · left; simp [stepDiagram, h1, h2, h3]

/-- Files present in the run directory stay present across the loop. -/
theorem runLoop_fs_mono (a : Diagram → AdapterResult) :
    ∀ (ds : List Diagram) (st : RunState) (x : Str),
      x ∈ st.fs → x ∈ (runLoop a ds st).fs := by
  intro ds
  induction ds with
  | nil => intro st x hx; simpa [runLoop] using hx
  | cons d rest ih =>
    intro st x hx
    show x ∈ (runLoop a rest (stepDiagram a st d)).fs
    apply ih
    rcases stepDiagram_fs a st d with h | h <;> rw [h]
    · exact hx
    · exact List.mem_append_left _ hx

/-- Every adapter invocation the loop records is for a diagram whose
output file was not present when the loop started. -/
theorem runLoop_calls_fresh (a : Diagram → AdapterResult) :
    ∀ (ds : List Diagram) (st : RunState) (c : Str),
      c ∈ (runLoop a ds st).calls →
        c ∈ st.calls ∨ (c ++ (".json").toList) ∉ st.fs := by
  intro ds
  induction ds with
  | nil => intro st c hc; left; simpa [runLoop] using hc
  | cons d rest ih =>
    intro st c hc
    have hstep : c ∈ (stepDiagram a st d).calls ∨
        (c ++ (".json").toList) ∉ (stepDiagram a st d).fs := ih (stepDiagram a st d) c hc
    have hsub : st.fs ⊆ (stepDiagram a st d).fs := by
      rcases stepDiagram_fs a st d with h | h <;> rw [h]
      · exact fun x hx => hx
      · exact fun x hx => List.mem_append_left _ hx
    rcases hstep with hcall | hfs
    · by_cases h1 : d.cropExists = false
      · left; simpa [stepDiagram, h1] using hcall
      · by_cases h2 : outName d ∈ st.fs
        · left; simpa [stepDiagram, h1, h2] using hcall
        · by_cases h3 : (a d).success = true
          · simp [stepDiagram, h1, h2, h3] at hcall
            rcases hcall with h | h
            · left; exact h
            · right; rw [h]; exact h2
          · simp [stepDiagram, h1, h2, h3] at hcall
            rcases hcall with h | h
            · left; exact h
            · right; rw [h]; exact h2
    · right
      exact fun hmem => hfs (hsub hmem)

/-- Rerunning the loop from a state whose directory contents already
equal the final contents of a previous run leaves them unchanged. -/
theorem runLoop_fs_idem (a : Diagram → AdapterResult) :
    ∀ (ds : List Diagram) (st st' : RunState),
      st'.fs = (runLoop a ds st).fs →
        (runLoop a ds st').fs = (runLoop a ds st).fs := by
  intro ds
  induction ds with
  | nil => intro st st' h; simpa [runLoop] using h
  | cons d rest ih =>
    intro st st' h
    have hmono : ∀ x, x ∈ (stepDiagram a st d).fs → x ∈ (runLoop a rest (stepDiagram a st d)).fs :=
      fun x hx => runLoop_fs_mono a rest (stepDiagram a st d) x hx
    have hrw : (runLoop a (d :: rest) st).fs = (runLoop a rest (stepDiagram a st d)).fs := rfl
    rw [hrw] at h
    have hstep' : (stepDiagram a st' d).fs = st'.fs := by
      by_cases h1 : d.cropExists = false
      · simp [stepDiagram, h1]
      · by_cases h2 : outName d ∈ st'.fs
        · simp [stepDiagram, h1, h2]
        · by_cases h3 : (a d).success = true
          · exfalso
            apply h2
            have hkey : outName d ∈ (stepDiagram a st d).fs := by
              by_cases hc1 : outName d ∈ st.fs
              · rcases stepDiagram_fs a st d with hh | hh <;> rw [hh]
                · exact hc1
                · exact List.mem_append_left _ hc1
              · have hfs : (stepDiagram a st d).fs = st.fs ++ [outName d] := by
                  simp [stepDiagram, h1, hc1, h3]
                rw [hfs]
                exact List.mem_append_right _ (by simp)
            rw [h]
            exact hmono _ hkey
          · simp [stepDiagram, h1, h2, h3]
    show (runLoop a rest (stepDiagram a st' d)).fs = _
    rw [hrw]
    apply ih
    rw [hstep', h]

/-- C1: running the evaluation driver loop twice against the same run
directory without clearing it produces the same set of successful
per-diagram result files as running it once (the final directory contents
are identical), the second run issues zero adapter invocations for every
diagram whose output file is already present after the first run, and
before evaluating a diagram the driver checks its output file: when the
file exists the diagram is counted as successful and the adapter is not
invoked (the state is returned with only the success counter advanced). -/
theorem claim_C1_idempotent_resumption (a : Diagram → AdapterResult)
    (ds : List Diagram) (fs0 : List Str) :
    (runLoop a ds (initState (runLoop a ds (initState fs0)).fs)).fs
        = (runLoop a ds (initState fs0)).fs
    ∧ (∀ d ∈ ds, outName d ∈ (runLoop a ds (initState fs0)).fs →
        diagramId d ∉ (runLoop a ds (initState (runLoop a ds (initState fs0)).fs)).calls)
    ∧ (∀ (st : RunState) (d : Diagram), d.cropExists = true → outName d ∈ st.fs →
        stepDiagram a st d = { st with successful := st.successful + 1 }) := by
  refine ⟨runLoop_fs_idem a ds (initState fs0) _ rfl, ?_, ?_⟩
  · intro d _ hmem hcall
    rcases runLoop_calls_fresh a ds (initState (runLoop a ds (initState fs0)).fs)
        (diagramId d) hcall with h | h
    · simpa [initState] using h
    · exact h hmem
  · intro st d h1 h2
    have h1' : ¬ d.cropExists = false := by simp [h1]
    simp [stepDiagram, h1', h2]

/-- C1 witness: a concrete instantiation. One diagram whose adapter call
succeeds: after the first run its file is present, the second run makes
no adapter call, the directory contents are unchanged, and the skip step
only bumps the success counter. -/
theorem claim_C1_witness :
    ((⟨("m").toList, ("p.jpg").toList, ("0").toList, true⟩ : Diagram) ∈
        [(⟨("m").toList, ("p.jpg").toList, ("0").toList, true⟩ : Diagram)])
    ∧ ((⟨("m").toList, ("p.jpg").toList, ("0").toList, true⟩ : Diagram).cropExists = true)
    ∧ (runLoop (fun _ => ⟨true, some [], none, []⟩)
          [⟨("m").toList, ("p.jpg").toList, ("0").toList, true⟩]
          (initState (runLoop (fun _ => ⟨true, some [], none, []⟩)
            [⟨("m").toList, ("p.jpg").toList, ("0").toList, true⟩] (initState [])).fs)).fs
        = (runLoop (fun _ => ⟨true, some [], none, []⟩)
            [⟨("m").toList, ("p.jpg").toList, ("0").toList, true⟩] (initState [])).fs := by
  refine ⟨by decide, by decide, ?_⟩
  exact (claim_C1_idempotent_resumption (fun _ => ⟨true, some [], none, []⟩)
    [⟨("m").toList, ("p.jpg").toList, ("0").toList, true⟩] []).1

/-- C10: over a completed run, each loaded segment increments exactly one
of the two counters, so the written run summary satisfies
`successful + failed = total_diagrams`, and `total_diagrams` is the number
of loaded segments. -/
theorem claim_C10_counter_invariant (env : Env) (mn prompt : Str)
    (a : Diagram → AdapterResult) (ds : List Diagram) (fs0 : List Str)
    (s : RunSummary) (fsf cs : List Str)
    (h : process_diagrams env mn prompt a ds fs0 = .completed s fsf cs) :
    s.successful + s.failed = s.total_diagrams ∧ s.total_diagrams = ds.length := by
  unfold process_diagrams at h
  rcases hpf : preflightCheck env mn with m | m | cfg <;> rw [hpf] at h
  · simp at h
  · simp at h
  · simp only [RunOutcome.completed.injEq] at h
    obtain ⟨hs, _, _⟩ := h
    rw [← hs]
    refine ⟨?_, rfl⟩
    have := runLoop_counters a ds (initState fs0)
    simpa [initState] using this

/-- C10 witness: a concrete completed run over one segment whose
evaluation fails: the summary reads 0 successful, 1 failed, 1 total. -/
theorem claim_C10_witness :
    process_diagrams ⟨some [], none, none, none⟩ (("claude").toList) []
        (fun _ => ⟨false, none, some [], []⟩)
        [⟨("m").toList, ("p.jpg").toList, ("0").toList, true⟩] []
      = .completed
          ⟨("claude-sonnet-4-5-20250929").toList, [], 1, 0, 1,
            [⟨("m_p_0").toList, false, none, some []⟩]⟩
          [] [(("m_p_0").toList)]
    ∧ ((⟨("claude-sonnet-4-5-20250929").toList, [], 1, 0, 1,
          [⟨("m_p_0").toList, false, none, some []⟩]⟩ : RunSummary).successful
        + (⟨("claude-sonnet-4-5-20250929").toList, [], 1, 0, 1,
            [⟨("m_p_0").toList, false, none, some []⟩]⟩ : RunSummary).failed
        = (⟨("claude-sonnet-4-5-20250929").toList, [], 1, 0, 1,
            [⟨("m_p_0").toList, false, none, some []⟩]⟩ : RunSummary).total_diagrams) := by
  refine ⟨rfl, ?_⟩
  exact (claim_C10_counter_invariant ⟨some [], none, none, none⟩ (("claude").toList) []
    (fun _ => ⟨false, none, some [], []⟩)
    [⟨("m").toList, ("p.jpg").toList, ("0").toList, true⟩] [] _ _ _ rfl).1

/-- C7: the gemini adapter never propagates an exception — a raised error
becomes a failed result carrying the error's message, a non-200 HTTP
status becomes a failed result whose message is `HTTP {status}: {body}`,
and a malformed response body (a raising `.json()`) becomes a failed
result with the decode error's message; and the driver, on a failed
adapter result, increments `failed`, records the outcome, and continues
the loop with the remaining diagrams. -/
theorem claim_C7_adapter_errors :
    (∀ (mid msg : Str), evaluate_with_gemini mid (.raised msg)
        = ⟨false, none, some msg, mid⟩)
    ∧ (∀ (mid body : Str) (status : Nat) (parsed : Except Str GeminiJson), status ≠ 200 →
        evaluate_with_gemini mid (.responded status body parsed)
          = ⟨false, none,
              some ((("HTTP ").toList) ++ natRepr status ++ ((": ").toList) ++ body), mid⟩)
    ∧ (∀ (mid body msg : Str), evaluate_with_gemini mid (.responded 200 body (.error msg))
        = ⟨false, none, some msg, mid⟩)
    ∧ (∀ (a : Diagram → AdapterResult) (st : RunState) (d : Diagram),
        d.cropExists = true → outName d ∉ st.fs → (a d).success = false →
          stepDiagram a st d
            = { st with
                failed := st.failed + 1,
                results := st.results
                  ++ [⟨diagramId d, (a d).success, (a d).response, (a d).error⟩],
                calls := st.calls ++ [diagramId d] })
    ∧ (∀ (a : Diagram → AdapterResult) (d : Diagram) (rest : List Diagram) (st : RunState),
        runLoop a (d :: rest) st = runLoop a rest (stepDiagram a st d)) := by
  refine ⟨fun mid msg => rfl, ?_, ?_, ?_, fun a d rest st => rfl⟩
  · intro mid body status parsed h
    simp [evaluate_with_gemini, h]
  · intro mid body msg
    simp [evaluate_with_gemini]
  · intro a st d h1 h2 h3
    have h1' : ¬ d.cropExists = false := by simp [h1]
    simp [stepDiagram, h1', h2, h3]

/-- C7 witness: HTTP 429 with some body produces exactly
`{success: false, error: "HTTP 429: Too Many Requests"}`, and the driver
step on a failing adapter bumps only the failure counter while the loop
equation lets it continue. -/
theorem claim_C7_witness :
    (429 ≠ 200)
    ∧ evaluate_with_gemini (("g").toList)
        (.responded 429 (("Too Many Requests").toList) (.error []))
      = ⟨false, none, some (("HTTP 429: Too Many Requests").toList), ("g").toList⟩ := by
  refine ⟨by decide, ?_⟩
  have h := claim_C7_adapter_errors.2.1 (("g").toList) (("Too Many Requests").toList) 429
    (.error []) (by decide)
  rw [h]
  decide

/-- C2 counterexample: with every credential absent from the environment,
selecting the `gemma` model (provider family `academiccloud`) does not
produce a fatal pre-flight abort — pre-flight proceeds, and the driver
goes on to invoke the adapter for a loaded diagram (`calls` is
non-empty), contradicting the claim that a missing credential aborts
before any network activity for all provider families. -/
theorem claim_C2_counterexample :
    preflightCheck ⟨none, none, none, none⟩ (("gemma").toList)
        = .proceed ⟨("gemma-3-27b-it").toList, ("academiccloud").toList, 2048⟩
    ∧ (match process_diagrams ⟨none, none, none, none⟩ (("gemma").toList) []
          (fun _ => ⟨false, none, some [], []⟩)
          [⟨("m").toList, ("p.jpg").toList, ("0").toList, true⟩] [] with
        | .abortedConfig _ => true
        | .completed _ _ calls => calls.isEmpty) = false := by
  exact ⟨rfl, rfl⟩

/-- C2 as amended: the pre-flight credential check covers only the
`anthropic` and `google` provider families — a missing `ANTHROPIC_API_KEY`
aborts a `claude` run before any adapter invocation, and whenever
pre-flight proceeds for an `anthropic`- or `google`-family configuration
the corresponding key is present; but for the declared models of the
`academiccloud` family (`gemma`, `qwen`) and the `openrouter` family
(`gemini`), pre-flight proceeds regardless of the environment, so a
missing credential there surfaces only as per-diagram failures. -/
theorem claim_C2_amended :
    (∀ (env : Env) (prompt : Str) (a : Diagram → AdapterResult) (ds : List Diagram)
        (fs0 : List Str), env.anthropicKey = none →
        process_diagrams env (("claude").toList) prompt a ds fs0
          = .abortedConfig (("ERROR: ANTHROPIC_API_KEY not set!").toList))
    ∧ (∀ (env : Env) (mn : Str) (cfg : ModelConfig),
        preflightCheck env mn = .proceed cfg → cfg.api = ("anthropic").toList →
          env.anthropicKey ≠ none)
    ∧ (∀ (env : Env) (mn : Str) (cfg : ModelConfig),
        preflightCheck env mn = .proceed cfg → cfg.api = ("google").toList →
          env.googleKey ≠ none)
    ∧ (∀ env : Env, preflightCheck env (("gemma").toList)
        = .proceed ⟨("gemma-3-27b-it").toList, ("academiccloud").toList, 2048⟩)
    ∧ (∀ env : Env, preflightCheck env (("qwen").toList)
        = .proceed ⟨("qwen2.5-vl-72b-instruct").toList, ("academiccloud").toList, 2048⟩)
    ∧ (∀ env : Env, preflightCheck env (("gemini").toList)
        = .proceed ⟨("google/gemini-3-pro-preview").toList, ("openrouter").toList, 8192⟩) := by
  refine ⟨?_, ?_, ?_, fun env => rfl, fun env => rfl, fun env => rfl⟩
  · intro env prompt a ds fs0 h
    have hpf0 : preflightCheck env (("claude").toList)
        = (if env.anthropicKey.isNone = true then
            Preflight.missingKey (("ERROR: ANTHROPIC_API_KEY not set!").toList)
          else .proceed ⟨("claude-sonnet-4-5-20250929").toList, ("anthropic").toList, 2048⟩) :=
      rfl
    have hpf : preflightCheck env (("claude").toList)
        = .missingKey (("ERROR: ANTHROPIC_API_KEY not set!").toList) := by
      rw [hpf0, h]
      rfl
    unfold process_diagrams
    rw [hpf]
  · intro env mn cfg hpf hapi hkey
    unfold preflightCheck at hpf
    rcases hf : MODELS.find? (fun p => p.1 = mn) with _ | ⟨nm, c⟩ <;> rw [hf] at hpf
    · simp at hpf
    · dsimp only at hpf
      by_cases h1 : c.api = ("anthropic").toList
      · rw [if_pos h1] at hpf
        by_cases h2 : env.anthropicKey.isNone
        · rw [if_pos h2] at hpf; simp at hpf
        · simp [hkey] at h2
      · rw [if_neg h1] at hpf
        by_cases h2 : c.api = ("google").toList
        · rw [if_pos h2] at hpf
          by_cases h3 : env.googleKey.isNone
          · rw [if_pos h3] at hpf; simp at hpf
          · rw [if_neg h3] at hpf
            simp only [Preflight.proceed.injEq] at hpf
            rw [← hpf] at hapi
            exact absurd hapi h1
        · rw [if_neg h2] at hpf
          simp only [Preflight.proceed.injEq] at hpf
          rw [← hpf] at hapi
          exact absurd hapi h1
  · intro env mn cfg hpf hapi hkey
    unfold preflightCheck at hpf
    rcases hf : MODELS.find? (fun p => p.1 = mn) with _ | ⟨nm, c⟩ <;> rw [hf] at hpf
    · simp at hpf
    · dsimp only at hpf
      by_cases h1 : c.api = ("anthropic").toList
      · rw [if_pos h1] at hpf
        by_cases h2 : env.anthropicKey.isNone
        · rw [if_pos h2] at hpf; simp at hpf
        · rw [if_neg h2] at hpf
          simp only [Preflight.proceed.injEq] at hpf
          rw [← hpf] at hapi
          rw [hapi] at h1
          simp at h1
      · rw [if_neg h1] at hpf
        by_cases h2 : c.api = ("google").toList
        · rw [if_pos h2] at hpf
          by_cases h3 : env.googleKey.isNone
          · rw [if_pos h3] at hpf; simp at hpf
          · simp [hkey] at h3
        · rw [if_neg h2] at hpf
          simp only [Preflight.proceed.injEq] at hpf
          rw [← hpf] at hapi
          exact absurd hapi h2

/-- C2 witness: the missing-`ANTHROPIC_API_KEY` abort at a concrete
environment and run. -/
theorem claim_C2_witness :
    ((⟨none, none, none, none⟩ : Env).anthropicKey = none)
    ∧ process_diagrams ⟨none, none, none, none⟩ (("claude").toList) []
        (fun _ => ⟨false, none, some [], []⟩) [] []
      = .abortedConfig (("ERROR: ANTHROPIC_API_KEY not set!").toList) :=
  ⟨rfl, claim_C2_amended.1 ⟨none, none, none, none⟩ [] (fun _ => ⟨false, none, some [], []⟩)
    [] [] rfl⟩

/-- C9 counterexample: a path whose extension is `.gif` (neither
`.jpg`/`.jpeg` nor `.png`) is sent as `image/png`, not `image/jpeg` as the
claim states — in the source, PNG is the default and JPEG requires the
extension to say so. -/
theorem claim_C9_counterexample :
    media_type_for ((".gif").toList) = ("image/png").toList
    ∧ media_type_for ((".gif").toList) ≠ ("image/jpeg").toList := by
  exact ⟨by decide, by decide⟩

/-- C9 as amended: the adapters infer `image/jpeg` exactly when the
lower-cased extension is `.jpg` or `.jpeg`, and `image/png` for every
other extension — PNG, not JPEG, is the default. -/
theorem claim_C9_amended :
    (∀ suffix : Str, pyLower suffix ≠ (".jpg").toList → pyLower suffix ≠ (".jpeg").toList →
        media_type_for suffix = ("image/png").toList)
    ∧ media_type_for ((".jpg").toList) = ("image/jpeg").toList
    ∧ media_type_for ((".JPEG").toList) = ("image/jpeg").toList
    ∧ media_type_for ((".png").toList) = ("image/png").toList := by
  refine ⟨?_, by decide, by decide, by decide⟩
  intro s h1 h2
  simp only [media_type_for]
  rw [if_neg]
  simp only [Bool.or_eq_true, decide_eq_true_eq, not_or]
  exact ⟨h1, h2⟩

/-- C9 witness: the amended default at a concrete non-image extension. -/
theorem claim_C9_witness :
    (pyLower ((".tiff").toList) ≠ (".jpg").toList)
    ∧ (pyLower ((".tiff").toList) ≠ (".jpeg").toList)
    ∧ media_type_for ((".tiff").toList) = ("image/png").toList :=
  ⟨by decide, by decide, claim_C9_amended.1 ((".tiff").toList) (by decide) (by decide)⟩

namespace EvalGT

/-- How `evaluate_model`'s fold moves every count: each counter ends at
its initial value plus the number of ground-truth entries satisfying the
corresponding predicate, the missing list grows by the unevaluated
entries, and the model/total fields are untouched. -/
theorem evalModel_fold (evals : List (Str × PredEntry)) :
    ∀ (gt : List (Str × GTEntry)) (r : MResults),
      (gt.foldl (evalStep evals) r).model = r.model
      ∧ (gt.foldl (evalStep evals) r).total_diagrams = r.total_diagrams
      ∧ (gt.foldl (evalStep evals) r).evaluated_diagrams
          = r.evaluated_diagrams + gt.countP (hasEval evals)
      ∧ (gt.foldl (evalStep evals) r).cuts_count_correct
          = r.cuts_count_correct + gt.countP (fieldHit evals cutsCountHit)
      ∧ (gt.foldl (evalStep evals) r).cuts_nested_correct
          = r.cuts_nested_correct + gt.countP (fieldHit evals cutsNestedHit)
      ∧ (gt.foldl (evalStep evals) r).lines_count_correct
          = r.lines_count_correct + gt.countP (fieldHit evals linesCountHit)
      ∧ (gt.foldl (evalStep evals) r).lines_branching_correct
          = r.lines_branching_correct + gt.countP (fieldHit evals linesBranchingHit)
      ∧ (gt.foldl (evalStep evals) r).spots_count_correct
          = r.spots_count_correct + gt.countP (fieldHit evals spotsCountHit)
      ∧ (gt.foldl (evalStep evals) r).exact_match
          = r.exact_match + gt.countP (fieldHit evals exactHit)
      ∧ (gt.foldl (evalStep evals) r).missing_evaluations.length
          = r.missing_evaluations.length + gt.countP (fun g => ¬ hasEval evals g) := by
  intro gt
  induction gt with
  | nil => intro r; simp
  | cons g rest ih =>
    intro r
    have hfold : (g :: rest).foldl (evalStep evals) r
        = rest.foldl (evalStep evals) (evalStep evals r g) := rfl
    rw [hfold]
    rcases hf : evals.find? (fun p => p.1 = g.1) with _ | pr
    · have hstep : evalStep evals r g
          = { r with missing_evaluations := r.missing_evaluations ++ [g.1] } := by
        unfold evalStep
        rw [hf]
      rw [hstep]
      obtain ⟨i1, i2, i3, i4, i5, i6, i7, i8, i9, i10⟩ :=
        ih { r with missing_evaluations := r.missing_evaluations ++ [g.1] }
      have hhas : hasEval evals g = false := by simp [hasEval, hf]
      have hfield : ∀ f, fieldHit evals f g = false := by
        intro f; simp [fieldHit, hf]
      refine ⟨by simpa using i1, by simpa using i2, ?_, ?_, ?_, ?_, ?_, ?_, ?_, ?_⟩ <;>
        simp [List.countP_cons, hhas, hfield, i3, i4, i5, i6, i7, i8, i9, i10] <;> omega
    · obtain ⟨nm, pred⟩ := pr
      have hstep : evalStep evals r g
          = { r with
              evaluated_diagrams := r.evaluated_diagrams + 1,
              cuts_count_correct := r.cuts_count_correct
                + (if pyEq pred.cuts_count g.2.cuts_count then 1 else 0),
              cuts_nested_correct := r.cuts_nested_correct
                + (if pyEq pred.cuts_nested g.2.cuts_nested then 1 else 0),
              lines_count_correct := r.lines_count_correct
                + (if pyEq pred.lines_count g.2.lines_count then 1 else 0),
              lines_branching_correct := r.lines_branching_correct
                + (if pyEq pred.lines_branching g.2.lines_branching then 1 else 0),
              spots_count_correct := r.spots_count_correct
                + (if pyEq pred.spots_count g.2.spots_count then 1 else 0),
              exact_match := r.exact_match
                + (if pyEq pred.cuts_count g.2.cuts_count && pyEq pred.cuts_nested g.2.cuts_nested
                    && pyEq pred.lines_count g.2.lines_count
                    && pyEq pred.lines_branching g.2.lines_branching
                    && pyEq pred.spots_count g.2.spots_count then 1 else 0),
              per_diagram := r.per_diagram
                ++ [⟨g.1, pyEq pred.cuts_count g.2.cuts_count,
                        pyEq pred.cuts_nested g.2.cuts_nested,
                        pyEq pred.lines_count g.2.lines_count,
                        pyEq pred.lines_branching g.2.lines_branching,
                        pyEq pred.spots_count g.2.spots_count,
                        pyEq pred.cuts_count g.2.cuts_count && pyEq pred.cuts_nested g.2.cuts_nested
                          && pyEq pred.lines_count g.2.lines_count
                          && pyEq pred.lines_branching g.2.lines_branching
                          && pyEq pred.spots_count g.2.spots_count⟩] } := by
        unfold evalStep
        rw [hf]
      rw [hstep]
      obtain ⟨i1, i2, i3, i4, i5, i6, i7, i8, i9, i10⟩ := ih _
      have hhas : hasEval evals g = true := by simp [hasEval, hf]
      have hfield : ∀ f, fieldHit evals f g = f pred g.2 := by
        intro f; simp [fieldHit, hf]
      refine ⟨by simpa using i1, by simpa using i2, ?_, ?_, ?_, ?_, ?_, ?_, ?_, ?_⟩ <;>
        simp [List.countP_cons, hhas, hfield, i3, i4, i5, i6, i7, i8, i9, i10,
          cutsCountHit, cutsNestedHit, linesCountHit, linesBranchingHit, spotsCountHit,
          exactHit] <;> (try split_ifs) <;> omega

end EvalGT

/-- A list's length splits into the entries satisfying a predicate and
those that do not. -/
theorem countP_split {α : Type} (p : α → Bool) :
    ∀ l : List α, l.countP p + l.countP (fun a => !(p a)) = l.length := by
  intro l
  induction l with
  | nil => simp
  | cons a rest ih =>
    cases hp : p a <;> simp [List.countP_cons, hp] <;> omega

/-- C3 as amended: in the `evaluate_against_ground_truth` comparator, a
ground-truth entry with `cuts.count == null` is dropped at load time, so
it is never evaluated, never missed, and never enters the total that any
accuracy denominator is built from (`total_diagrams` and
`evaluated_diagrams` count only loaded entries, and every loaded entry
is either evaluated or missing). The `calculate_morphological_metrics`
comparator, however, performs no such exclusion — see the
counterexample, where a null-cuts entry enters the evaluated count. -/
theorem claim_C3_null_gt_excluded (raw : List (Str × EvalGT.GTEntry)) :
    (∀ e ∈ EvalGT.load_ground_truth raw, e.2.cuts_count ≠ JVal.null)
    ∧ (∀ (model : Str) (evals : List (Str × EvalGT.PredEntry)),
        (EvalGT.evaluate_model model evals (EvalGT.load_ground_truth raw)).total_diagrams
            = (EvalGT.load_ground_truth raw).length
        ∧ (EvalGT.evaluate_model model evals (EvalGT.load_ground_truth raw)).evaluated_diagrams
            = (EvalGT.load_ground_truth raw).countP (EvalGT.hasEval evals)
        ∧ (EvalGT.evaluate_model model evals (EvalGT.load_ground_truth raw)).evaluated_diagrams
            + (EvalGT.evaluate_model model evals
                (EvalGT.load_ground_truth raw)).missing_evaluations.length
            = (EvalGT.load_ground_truth raw).length) := by
  constructor
  · intro e he heq
    have hp := (List.mem_filter.1 he).2
    rw [heq] at hp
    simp at hp
  · intro model evals
    obtain ⟨e1, e2, e3, e4, e5, e6, e7, e8, e9, e10⟩ :=
      EvalGT.evalModel_fold evals (EvalGT.load_ground_truth raw)
        ⟨model, (EvalGT.load_ground_truth raw).length, 0, 0, 0, 0, 0, 0, 0, [], []⟩
    refine ⟨by simpa using e2, by simpa using e3, ?_⟩
    have h3 : (EvalGT.evaluate_model model evals (EvalGT.load_ground_truth raw)).evaluated_diagrams
        = (EvalGT.load_ground_truth raw).countP (EvalGT.hasEval evals) := by simpa using e3
    have h10 : (EvalGT.evaluate_model model evals
        (EvalGT.load_ground_truth raw)).missing_evaluations.length
        = (EvalGT.load_ground_truth raw).countP (fun g => !(EvalGT.hasEval evals g)) := by
      simpa using e10
    rw [h3, h10]
    exact countP_split (EvalGT.hasEval evals) (EvalGT.load_ground_truth raw)

/-- C3 counterexample: the `calculate_morphological_metrics` comparator
does count a ground-truth entry with `cuts.count == null`: with one such
entry and one parsed prediction for it, the aggregated row for the model
reports `num_evaluations = 1` — the null entry is in the denominator of
every accuracy percentage of that row, contradicting the claim that every
comparator excludes such entries from scoring. -/
theorem claim_C3_counterexample :
    (c3GT.all (fun e => match e.2.cuts_count with | .null => true | _ => false)) = true
    ∧ (MorphMetrics.calculate_metrics (MorphMetrics.load_ground_truth c3GT) c3Preds).map
        (fun r => (r.model, r.num_evaluations)) = [((("M").toList), 1)] := by
  exact ⟨rfl, rfl⟩

/-- C4: in `evaluate_against_ground_truth`, with `n > 0` diagrams
evaluated out of `t` loaded ground-truth diagrams, the aggregation
produces `coverage = 100·n/t` while `exact_match` and every per-field
accuracy divide the corresponding match count by the evaluated count `n`,
not by the ground-truth total `t` (all rounded to two decimals as the
source does). -/
theorem claim_C4_accuracy_over_evaluated (model : Str)
    (evals : List (Str × EvalGT.PredEntry)) (gt : List (Str × EvalGT.GTEntry))
    (h : 0 < gt.countP (EvalGT.hasEval evals)) :
    ∃ m, EvalGT.calculate_metrics (EvalGT.evaluate_model model evals gt) = some m
      ∧ m.coverage
          = round2 (100 * (gt.countP (EvalGT.hasEval evals) : ℚ) / (gt.length : ℚ))
      ∧ m.exact_match
          = round2 (100 * (gt.countP (EvalGT.fieldHit evals EvalGT.exactHit) : ℚ)
              / (gt.countP (EvalGT.hasEval evals) : ℚ))
      ∧ m.cuts_count_acc
          = round2 (100 * (gt.countP (EvalGT.fieldHit evals EvalGT.cutsCountHit) : ℚ)
              / (gt.countP (EvalGT.hasEval evals) : ℚ))
      ∧ m.cuts_nested_acc
          = round2 (100 * (gt.countP (EvalGT.fieldHit evals EvalGT.cutsNestedHit) : ℚ)
              / (gt.countP (EvalGT.hasEval evals) : ℚ))
      ∧ m.lines_count_acc
          = round2 (100 * (gt.countP (EvalGT.fieldHit evals EvalGT.linesCountHit) : ℚ)
              / (gt.countP (EvalGT.hasEval evals) : ℚ))
      ∧ m.lines_branching_acc
          = round2 (100 * (gt.countP (EvalGT.fieldHit evals EvalGT.linesBranchingHit) : ℚ)
              / (gt.countP (EvalGT.hasEval evals) : ℚ))
      ∧ m.spots_count_acc
          = round2 (100 * (gt.countP (EvalGT.fieldHit evals EvalGT.spotsCountHit) : ℚ)
              / (gt.countP (EvalGT.hasEval evals) : ℚ)) := by
  obtain ⟨e1, e2, e3, e4, e5, e6, e7, e8, e9, e10⟩ :=
    EvalGT.evalModel_fold evals gt ⟨model, gt.length, 0, 0, 0, 0, 0, 0, 0, [], []⟩
  have hn : (EvalGT.evaluate_model model evals gt).evaluated_diagrams
      = gt.countP (EvalGT.hasEval evals) := by simpa using e3
  have ht : (EvalGT.evaluate_model model evals gt).total_diagrams = gt.length := by
    simpa using e2
  have hcc : (EvalGT.evaluate_model model evals gt).cuts_count_correct
      = gt.countP (EvalGT.fieldHit evals EvalGT.cutsCountHit) := by simpa using e4
  have hcn : (EvalGT.evaluate_model model evals gt).cuts_nested_correct
      = gt.countP (EvalGT.fieldHit evals EvalGT.cutsNestedHit) := by simpa using e5
  have hlc : (EvalGT.evaluate_model model evals gt).lines_count_correct
      = gt.countP (EvalGT.fieldHit evals EvalGT.linesCountHit) := by simpa using e6
  have hlb : (EvalGT.evaluate_model model evals gt).lines_branching_correct
      = gt.countP (EvalGT.fieldHit evals EvalGT.linesBranchingHit) := by simpa using e7
  have hsc : (EvalGT.evaluate_model model evals gt).spots_count_correct
      = gt.countP (EvalGT.fieldHit evals EvalGT.spotsCountHit) := by simpa using e8
  have hex : (EvalGT.evaluate_model model evals gt).exact_match
      = gt.countP (EvalGT.fieldHit evals EvalGT.exactHit) := by simpa using e9
  have hne : ¬ (EvalGT.evaluate_model model evals gt).evaluated_diagrams = 0 := by omega
  have hM : EvalGT.calculate_metrics (EvalGT.evaluate_model model evals gt)
      = some
          ⟨(EvalGT.evaluate_model model evals gt).model,
            ((EvalGT.evaluate_model model evals gt).evaluated_diagrams,
              (EvalGT.evaluate_model model evals gt).total_diagrams),
            round2 (100 * ((EvalGT.evaluate_model model evals gt).evaluated_diagrams : ℚ)
              / ((EvalGT.evaluate_model model evals gt).total_diagrams : ℚ)),
            round2 (100 * ((EvalGT.evaluate_model model evals gt).exact_match : ℚ)
              / ((EvalGT.evaluate_model model evals gt).evaluated_diagrams : ℚ)),
            round2 (100 * ((EvalGT.evaluate_model model evals gt).cuts_count_correct : ℚ)
              / ((EvalGT.evaluate_model model evals gt).evaluated_diagrams : ℚ)),
            round2 (100 * ((EvalGT.evaluate_model model evals gt).cuts_nested_correct : ℚ)
              / ((EvalGT.evaluate_model model evals gt).evaluated_diagrams : ℚ)),
            round2 (100 * ((EvalGT.evaluate_model model evals gt).lines_count_correct : ℚ)
              / ((EvalGT.evaluate_model model evals gt).evaluated_diagrams : ℚ)),
            round2 (100 * ((EvalGT.evaluate_model model evals gt).lines_branching_correct : ℚ)
              / ((EvalGT.evaluate_model model evals gt).evaluated_diagrams : ℚ)),
            round2 (100 * ((EvalGT.evaluate_model model evals gt).spots_count_correct : ℚ)
              / ((EvalGT.evaluate_model model evals gt).evaluated_diagrams : ℚ))⟩ := by
    simp only [EvalGT.calculate_metrics]
    rw [if_neg hne]
  refine ⟨_, hM, ?_, ?_, ?_, ?_, ?_, ?_, ?_⟩
  all_goals simp only [hn, ht, hcc, hcn, hlc, hlb, hsc, hex]

/-- C4 witness: with 10 of 27 diagrams evaluated and 9 matching on
`lines.count`, the aggregated `lines_count_acc` is 90 (matches over
evaluated), not 9/27. -/
theorem claim_C4_witness :
    0 < c4GT.countP (EvalGT.hasEval c4Evals)
    ∧ (EvalGT.calculate_metrics (EvalGT.evaluate_model (("M").toList) c4Evals c4GT)).map
        (fun m => (m.evaluated, m.lines_count_acc)) = some ((10, 27), 90) := by
  constructor
  · decide
  · obtain ⟨m, hM, hcov, hex, hcc, hcn, hlc, hlb, hsc⟩ :=
      claim_C4_accuracy_over_evaluated (("M").toList) c4Evals c4GT (by decide)
    rw [hM]
    rw [Option.map_some']
    have h1 : c4GT.countP (EvalGT.hasEval c4Evals) = 10 := by decide
    have h2 : c4GT.countP (EvalGT.fieldHit c4Evals EvalGT.linesCountHit) = 9 := by decide
    have hev : m.evaluated = (10, 27) := by
      have e := EvalGT.evalModel_fold c4Evals c4GT
        ⟨("M").toList, c4GT.length, 0, 0, 0, 0, 0, 0, 0, [], []⟩
      obtain ⟨_, e2, e3, _⟩ := e
      have hn : (EvalGT.evaluate_model (("M").toList) c4Evals c4GT).evaluated_diagrams = 10 := by
        decide
      have ht : (EvalGT.evaluate_model (("M").toList) c4Evals c4GT).total_diagrams = 27 := by
        decide
      have : EvalGT.calculate_metrics (EvalGT.evaluate_model (("M").toList) c4Evals c4GT)
          = some m := hM
      simp only [EvalGT.calculate_metrics] at this
      rw [if_neg (by rw [hn]; omega)] at this
      have hm := Option.some.inj this
      rw [← hm]
      rw [hn, ht]
    rw [hev, hlc, h1, h2]
    norm_num [round2, roundHalfEven]

namespace MorphMetrics

/-- `normalize_labels` is the set of normalized labels. -/
theorem normalize_labels_eq (labels : List Str) :
    normalize_labels labels = (labels.map normLabel).toFinset := by
  cases labels with
  | nil => rfl
  | cons a rest => rfl

end MorphMetrics

/-- C5: the comparator's `spots.labels` score lower-cases and trims each
label on both sides and compares the resulting sets: the field matches
exactly when the normalized label sets coincide, so it is invariant under
reordering, under per-label case and surrounding-whitespace changes, and
under duplicates, while any set difference is a non-match; concretely,
`["A","b"]` matches `["b","a"]` and `["a","B"]` but not `["a","b","c"]`. -/
theorem claim_C5_label_set_comparison :
    (∀ (p : MorphMetrics.PredEntry) (g : MorphMetrics.GTEntry),
        ((MorphMetrics.compare_prediction p g).spots_labels = true
          ↔ MorphMetrics.normalize_labels p.spots_labels
              = MorphMetrics.normalize_labels g.spots_labels))
    ∧ (∀ (p : MorphMetrics.PredEntry) (g : MorphMetrics.GTEntry) (l : List Str),
        p.spots_labels.Perm l →
          (MorphMetrics.compare_prediction { p with spots_labels := l } g).spots_labels
            = (MorphMetrics.compare_prediction p g).spots_labels)
    ∧ (∀ (p : MorphMetrics.PredEntry) (g : MorphMetrics.GTEntry) (l : List Str),
        l.map MorphMetrics.normLabel = p.spots_labels.map MorphMetrics.normLabel →
          (MorphMetrics.compare_prediction { p with spots_labels := l } g).spots_labels
            = (MorphMetrics.compare_prediction p g).spots_labels)
    ∧ (∀ (p : MorphMetrics.PredEntry) (g : MorphMetrics.GTEntry) (x : Str) (rest : List Str),
        (MorphMetrics.compare_prediction { p with spots_labels := x :: x :: rest } g).spots_labels
          = (MorphMetrics.compare_prediction { p with spots_labels := x :: rest } g).spots_labels)
    ∧ (∀ (p : MorphMetrics.PredEntry) (g : MorphMetrics.GTEntry),
        MorphMetrics.normalize_labels p.spots_labels
            ≠ MorphMetrics.normalize_labels g.spots_labels →
          (MorphMetrics.compare_prediction p g).spots_labels = false)
    ∧ ((MorphMetrics.compare_prediction
          ⟨.num 1, .bool true, .num 1, .bool false, .num 2, [("A").toList, ("b").toList]⟩
          ⟨.num 1, .bool true, .num 1, .bool false, .num 2,
            [("b").toList, ("a").toList]⟩).spots_labels = true
        ∧ (MorphMetrics.compare_prediction
            ⟨.num 1, .bool true, .num 1, .bool false, .num 2, [("A").toList, ("b").toList]⟩
            ⟨.num 1, .bool true, .num 1, .bool false, .num 2,
              [("a").toList, ("B").toList]⟩).spots_labels = true
        ∧ (MorphMetrics.compare_prediction
            ⟨.num 1, .bool true, .num 1, .bool false, .num 2, [("A").toList, ("b").toList]⟩
            ⟨.num 1, .bool true, .num 1, .bool false, .num 2,
              [("a").toList, ("b").toList, ("c").toList]⟩).spots_labels = false) := by
  have hfield : ∀ (p : MorphMetrics.PredEntry) (g : MorphMetrics.GTEntry),
      (MorphMetrics.compare_prediction p g).spots_labels
        = decide (MorphMetrics.normalize_labels p.spots_labels
            = MorphMetrics.normalize_labels g.spots_labels) := fun p g => rfl
  refine ⟨?_, ?_, ?_, ?_, ?_, by decide, by decide, by decide⟩
  · intro p g
    rw [hfield]
    exact decide_eq_true_iff
  · intro p g l hperm
    rw [hfield, hfield]
    have : MorphMetrics.normalize_labels l = MorphMetrics.normalize_labels p.spots_labels := by
      rw [MorphMetrics.normalize_labels_eq, MorphMetrics.normalize_labels_eq]
      ext x
      simp [List.mem_toFinset, (hperm.map MorphMetrics.normLabel).mem_iff]
    rw [this]
  · intro p g l hmap
    rw [hfield, hfield]
    have : MorphMetrics.normalize_labels l = MorphMetrics.normalize_labels p.spots_labels := by
      rw [MorphMetrics.normalize_labels_eq, MorphMetrics.normalize_labels_eq, hmap]
    rw [this]
  · intro p g x rest
    rw [hfield, hfield]
    have : MorphMetrics.normalize_labels (x :: x :: rest)
        = MorphMetrics.normalize_labels (x :: rest) := by
      rw [MorphMetrics.normalize_labels_eq, MorphMetrics.normalize_labels_eq]
      simp [List.toFinset_cons]
    rw [this]
  · intro p g hne
    rw [hfield]
    simpa using hne

/-- C5 witness: the order-insensitivity conjunct applied at a concrete
permutation of label lists. -/
theorem claim_C5_witness :
    ([("x").toList, ("y").toList].Perm [("y").toList, ("x").toList])
    ∧ (MorphMetrics.compare_prediction
          ⟨.num 1, .bool true, .num 1, .bool false, .num 2,
            [("y").toList, ("x").toList]⟩
          ⟨.num 1, .bool true, .num 1, .bool false, .num 2,
            [("x").toList, ("y").toList]⟩).spots_labels
        = (MorphMetrics.compare_prediction
            ⟨.num 1, .bool true, .num 1, .bool false, .num 2,
              [("x").toList, ("y").toList]⟩
            ⟨.num 1, .bool true, .num 1, .bool false, .num 2,
              [("x").toList, ("y").toList]⟩).spots_labels := by
  constructor
  · decide
  · exact claim_C5_label_set_comparison.2.1
      ⟨.num 1, .bool true, .num 1, .bool false, .num 2, [("x").toList, ("y").toList]⟩
      ⟨.num 1, .bool true, .num 1, .bool false, .num 2, [("x").toList, ("y").toList]⟩
      [("y").toList, ("x").toList] (by decide)

/-- C3 witness: the amended exclusion applied at a concrete ground-truth
directory with one null-cuts entry and one complete entry, of which the
complete one has an evaluation: only the complete entry is loaded, and it
accounts for the whole total. -/
theorem claim_C3_witness :
    ((("d1").toList,
        (⟨.null, .bool true, .num 1, .bool false, .num 2⟩ : EvalGT.GTEntry)) ∉
      EvalGT.load_ground_truth
        [(("d1").toList, ⟨.null, .bool true, .num 1, .bool false, .num 2⟩),
         (("d2").toList, ⟨.num 1, .bool true, .num 1, .bool false, .num 2⟩)])
    ∧ ((EvalGT.evaluate_model (("M").toList)
          [(("d2").toList, ⟨.num 1, .bool true, .num 1, .bool false, .num 2⟩)]
          (EvalGT.load_ground_truth
            [(("d1").toList, ⟨.null, .bool true, .num 1, .bool false, .num 2⟩),
             (("d2").toList, ⟨.num 1, .bool true, .num 1, .bool false, .num 2⟩)])).total_diagrams
        = (EvalGT.load_ground_truth
            [(("d1").toList, ⟨.null, .bool true, .num 1, .bool false, .num 2⟩),
             (("d2").toList, ⟨.num 1, .bool true, .num 1, .bool false, .num 2⟩)]).length) := by
  constructor
  · intro hmem
    exact (claim_C3_null_gt_excluded
      [(("d1").toList, ⟨.null, .bool true, .num 1, .bool false, .num 2⟩),
       (("d2").toList, ⟨.num 1, .bool true, .num 1, .bool false, .num 2⟩)]).1 _ hmem rfl
  · exact ((claim_C3_null_gt_excluded
      [(("d1").toList, ⟨.null, .bool true, .num 1, .bool false, .num 2⟩),
       (("d2").toList, ⟨.num 1, .bool true, .num 1, .bool false, .num 2⟩)]).2
      (("M").toList)
      [(("d2").toList, ⟨.num 1, .bool true, .num 1, .bool false, .num 2⟩)]).1

/-- A per-directory fold is the fold of the flattened file stream. -/
theorem foldl_dirs_flat (F : List Str × List CEval → RFile → List Str × List CEval) :
    ∀ (l : List RunDir) (st : List Str × List CEval),
      l.foldl (fun st dir => dir.files.foldl F st) st
        = (l.flatMap (fun d => d.files)).foldl F st := by
  intro l
  induction l with
  | nil => intro st; rfl
  | cons d rest ih =>
    intro st
    show rest.foldl _ (d.files.foldl F st) = _
    rw [ih, List.flatMap_cons, List.foldl_append]

/-- The consolidator's file loop equals filtering by `passes` followed by
first-seen deduplication, both components of the state growing by the
accepted files. -/
theorem consolStep_fold_eq (cfg : EvalConfig) (mn : Str) :
    ∀ (files : List RFile) (seen : List Str) (out : List CEval),
      files.foldl (consolStep cfg mn) (seen, out)
        = (seen ++ (dedupF (files.filter (passes cfg)) seen).map (fun f => f.stem),
           out ++ (dedupF (files.filter (passes cfg)) seen).map (mkCEval cfg mn)) := by
  intro files
  induction files with
  | nil => intro seen out; simp [dedupF]
  | cons f rest ih =>
    intro seen out
    show rest.foldl (consolStep cfg mn) (consolStep cfg mn (seen, out) f) = _
    by_cases hpass : passes cfg f = true
    · have hcomp := hpass
      simp only [passes, Bool.and_eq_true, Bool.not_eq_true', decide_eq_false_iff_not] at hcomp
      obtain ⟨⟨hg, hsum⟩, hpr⟩ := hcomp
      by_cases hseen : f.stem ∈ seen
      · have hstep : consolStep cfg mn (seen, out) f = (seen, out) := by
          simp [consolStep, hg, hsum, hseen]
        rw [hstep, ih, List.filter_cons, if_pos hpass]
        have hd : dedupF (f :: rest.filter (passes cfg)) seen
            = dedupF (rest.filter (passes cfg)) seen := by
          rw [dedupF, if_pos (by simpa using hseen)]
        rw [hd]
      · have hstep : consolStep cfg mn (seen, out) f
            = (seen ++ [f.stem], out ++ [mkCEval cfg mn f]) := by
          simp [consolStep, hg, hsum, hseen, hpr]
        rw [hstep, ih, List.filter_cons, if_pos hpass]
        have hd : dedupF (f :: rest.filter (passes cfg)) seen
            = f :: dedupF (rest.filter (passes cfg)) (seen ++ [f.stem]) := by
          rw [dedupF, if_neg (by simpa using hseen)]
        rw [hd]
        simp [List.append_assoc]
    · have hstep : consolStep cfg mn (seen, out) f = (seen, out) := by
        by_cases hg : globOK f = true
        · by_cases hsum : fname f = sumName
          · simp [consolStep, hg, hsum]
          · by_cases hseen : f.stem ∈ seen
            · simp [consolStep, hg, hsum, hseen]
            · by_cases hpr : promptOK cfg f = true
              · exact absurd (by simp [passes, hg, hsum, hpr]) hpass
              · simp [consolStep, hg, hsum, hseen, hpr]
        · simp [consolStep, hg]
      rw [hstep, ih, List.filter_cons, if_neg (by simpa using hpass)]

/-- The stems surviving first-seen deduplication are distinct and
disjoint from the initial seen set. -/
theorem dedupF_stems : ∀ (l : List RFile) (seen : List Str),
    ((dedupF l seen).map (fun f => f.stem)).Nodup
    ∧ ∀ f ∈ dedupF l seen, f.stem ∉ seen := by
  intro l
  induction l with
  | nil => intro seen; simp [dedupF]
  | cons f rest ih =>
    intro seen
    by_cases hseen : f.stem ∈ seen
    · have hd : dedupF (f :: rest) seen = dedupF rest seen := by
        rw [dedupF, if_pos (by simpa using hseen)]
      rw [hd]
      exact ih seen
    · have hd : dedupF (f :: rest) seen = f :: dedupF rest (seen ++ [f.stem]) := by
        rw [dedupF, if_neg (by simpa using hseen)]
      rw [hd]
      obtain ⟨ihn, ihd⟩ := ih (seen ++ [f.stem])
      constructor
      · simp only [List.map_cons, List.nodup_cons]
        refine ⟨?_, ihn⟩
        intro hmem
        obtain ⟨f', hf', hst⟩ := List.mem_map.1 hmem
        have := ihd f' hf'
        exact this (by rw [← hst]; exact List.mem_append_right _ (by simp))
      · intro f' hf'
        rcases hf' with _ | hf'
        · exact hseen
        · intro hmem
          exact ihd f' (by assumption) (List.mem_append_left _ hmem)

/-- Every survivor of first-seen deduplication is the first entry of the
list carrying its stem. -/
theorem dedupF_first : ∀ (l : List RFile) (seen : List Str) (f' : RFile),
    f' ∈ dedupF l seen → l.find? (fun x => x.stem = f'.stem) = some f' := by
  intro l
  induction l with
  | nil => intro seen f' h; simp [dedupF] at h
  | cons f rest ih =>
    intro seen f' hmem
    by_cases hseen : f.stem ∈ seen
    · have hd : dedupF (f :: rest) seen = dedupF rest seen := by
        rw [dedupF, if_pos (by simpa using hseen)]
      rw [hd] at hmem
      have hne : ¬ f.stem = f'.stem := by
        intro heq
        exact (dedupF_stems rest seen).2 f' hmem (heq ▸ hseen)
      have hdec : decide (f.stem = f'.stem) = false := by simpa using hne
      simp only [List.find?_cons, hdec]
      exact ih seen f' hmem
    · have hd : dedupF (f :: rest) seen = f :: dedupF rest (seen ++ [f.stem]) := by
        rw [dedupF, if_neg (by simpa using hseen)]
      rw [hd] at hmem
      rcases hmem with _ | hmem
      · simp [List.find?_cons]
      · have hnotin := (dedupF_stems rest (seen ++ [f.stem])).2 f' (by assumption)
        have hne : ¬ f.stem = f'.stem := by
          intro heq
          exact hnotin (List.mem_append_right _ (by simp [heq]))
        have hdec : decide (f.stem = f'.stem) = false := by simpa using hne
        simp only [List.find?_cons, hdec]
        exact ih (seen ++ [f.stem]) f' (by assumption)

/-- Sorting by name is determined by the multiset of directories when
names are distinct: any two permuted inputs sort to the same list. -/
theorem sortDirs_perm_eq (l₁ l₂ : List RunDir) (hperm : l₁.Perm l₂)
    (hn : (l₁.map RunDir.name).Nodup) : sortDirs l₁ = sortDirs l₂ := by
  have hs₁ : (sortDirs l₁).Perm l₁ := List.perm_insertionSort dirLe l₁
  have hs₂ : (sortDirs l₂).Perm l₂ := List.perm_insertionSort dirLe l₂
  have hps : (sortDirs l₁).Perm (sortDirs l₂) :=
    (hs₁.trans hperm).trans hs₂.symm
  have hsort₁ : List.Sorted dirLe (sortDirs l₁) := List.sorted_insertionSort dirLe l₁
  have hsort₂ : List.Sorted dirLe (sortDirs l₂) := List.sorted_insertionSort dirLe l₂
  have hpw₁ : (sortDirs l₁).Pairwise (fun a b => a.name ≠ b.name) := by
    have h0 : l₁.Pairwise (fun a b => a.name ≠ b.name) := by
      rw [List.Nodup, List.pairwise_map] at hn
      exact hn
    exact (List.Perm.pairwise_iff (fun h => Ne.symm h) hs₁).2 h0
  have hpw₂ : (sortDirs l₂).Pairwise (fun a b => a.name ≠ b.name) := by
    have h0 : l₂.Pairwise (fun a b => a.name ≠ b.name) := by
      have hn₂ : (l₂.map RunDir.name).Nodup := ((hperm.map RunDir.name).nodup_iff).1 hn
      rw [List.Nodup, List.pairwise_map] at hn₂
      exact hn₂
    exact (List.Perm.pairwise_iff (fun h => Ne.symm h) hs₂).2 h0
  have hstrict₁ : List.Pairwise (fun a b => dirLe a b ∧ a.name ≠ b.name) (sortDirs l₁) :=
    hsort₁.and hpw₁
  have hstrict₂ : List.Pairwise (fun a b => dirLe a b ∧ a.name ≠ b.name) (sortDirs l₂) :=
    hsort₂.and hpw₂
  haveI : IsAntisymm RunDir (fun a b => dirLe a b ∧ a.name ≠ b.name) :=
    ⟨fun a b hab hba => absurd (lexLe_antisymm hab.1 hba.1) hab.2⟩
  exact List.eq_of_perm_of_sorted hps hstrict₁ hstrict₂

/-- C6: one consolidation pass keeps at most one entry per diagram id for
a model (the output ids are distinct); each surviving entry is built from
the first file carrying its id in the chronologically sorted, filtered
file stream (first-seen wins); and the result is determined by the set of
run directories alone — any permutation of the directory listing (with
distinct names) consolidates identically, because directories are sorted
by timestamped name before processing. -/
theorem claim_C6_dedup_first_seen (cfg : EvalConfig) (mn : Str) (dirs : List RunDir) :
    ((consolidateModel cfg mn dirs).map (fun e => e.diagram_id)).Nodup
    ∧ (∀ e ∈ consolidateModel cfg mn dirs,
        ∃ f, (((sortDirs (dirs.filter (fun d => (("eval_").toList).isPrefixOf d.name))).flatMap
                (fun d => d.files)).filter (passes cfg)).find?
                (fun x => x.stem = e.diagram_id) = some f
          ∧ e = mkCEval cfg mn f)
    ∧ (∀ dirs₂ : List RunDir, dirs.Perm dirs₂ → (dirs.map RunDir.name).Nodup →
        consolidateModel cfg mn dirs = consolidateModel cfg mn dirs₂) := by
  have hrepr : ∀ ds : List RunDir, consolidateModel cfg mn ds
      = (dedupF (((sortDirs (ds.filter (fun d => (("eval_").toList).isPrefixOf d.name))).flatMap
          (fun d => d.files)).filter (passes cfg)) []).map (mkCEval cfg mn) := by
    intro ds
    simp only [consolidateModel]
    rw [foldl_dirs_flat, consolStep_fold_eq]
    simp
  refine ⟨?_, ?_, ?_⟩
  · rw [hrepr]
    rw [List.map_map]
    have hfun : ((fun e : CEval => e.diagram_id) ∘ mkCEval cfg mn) = fun f => f.stem := rfl
    rw [hfun]
    exact (dedupF_stems _ []).1
  · intro e he
    rw [hrepr] at he
    obtain ⟨f, hf, hfe⟩ := List.mem_map.1 he
    subst hfe
    exact ⟨f, dedupF_first _ [] f hf, rfl⟩
  · intro dirs₂ hperm hn
    rw [hrepr, hrepr]
    have hps : sortDirs (dirs.filter (fun d => (("eval_").toList).isPrefixOf d.name))
        = sortDirs (dirs₂.filter (fun d => (("eval_").toList).isPrefixOf d.name)) := by
      apply sortDirs_perm_eq _ _ (hperm.filter _)
      exact hn.sublist ((List.filter_sublist dirs).map RunDir.name)
    rw [hps]

/-- C6 witness: determinism at a concrete pair of permuted directory
listings — an older and a newer run directory consolidate the same in
either listing order. -/
theorem claim_C6_witness :
    ([(⟨("eval_20260101_000000").toList,
        [⟨("hou02614c00458_d_1").toList, [], ("x").toList, ("m").toList, ("t").toList⟩]⟩ : RunDir),
      ⟨("eval_20260102_000000").toList,
        [⟨("hou02614c00458_d_1").toList, [], ("y").toList, ("m").toList, ("t").toList⟩]⟩].Perm
      [⟨("eval_20260102_000000").toList,
        [⟨("hou02614c00458_d_1").toList, [], ("y").toList, ("m").toList, ("t").toList⟩]⟩,
       ⟨("eval_20260101_000000").toList,
        [⟨("hou02614c00458_d_1").toList, [], ("x").toList, ("m").toList, ("t").toList⟩]⟩])
    ∧ consolidateModel ⟨false, none⟩ (("M").toList)
        [⟨("eval_20260101_000000").toList,
          [⟨("hou02614c00458_d_1").toList, [], ("x").toList, ("m").toList, ("t").toList⟩]⟩,
         ⟨("eval_20260102_000000").toList,
          [⟨("hou02614c00458_d_1").toList, [], ("y").toList, ("m").toList, ("t").toList⟩]⟩]
      = consolidateModel ⟨false, none⟩ (("M").toList)
          [⟨("eval_20260102_000000").toList,
            [⟨("hou02614c00458_d_1").toList, [], ("y").toList, ("m").toList, ("t").toList⟩]⟩,
           ⟨("eval_20260101_000000").toList,
            [⟨("hou02614c00458_d_1").toList, [], ("x").toList, ("m").toList, ("t").toList⟩]⟩] := by
  constructor
  · decide
  · exact (claim_C6_dedup_first_seen ⟨false, none⟩ (("M").toList)
      [⟨("eval_20260101_000000").toList,
        [⟨("hou02614c00458_d_1").toList, [], ("x").toList, ("m").toList, ("t").toList⟩]⟩,
       ⟨("eval_20260102_000000").toList,
        [⟨("hou02614c00458_d_1").toList, [], ("y").toList, ("m").toList, ("t").toList⟩]⟩]).2.2
      _ (by decide) (by decide)

/-- The lazy scan captures exactly a brace-terminated text that has no
premature close, when the closing fence follows it. -/
theorem lazyScan_exact : ∀ m : Str, m ≠ [] → m.getLast? = some rbraceC →
    prematureClose m = false → lazyScan (m ++ fenceTail) = some m := by
  intro m
  induction m with
  | nil => intro h; exact absurd rfl h
  | cons c m' ih =>
    intro _ hlast hprem
    cases m' with
    | nil =>
      have hc : c = rbraceC := by simpa using hlast
      subst hc
      show lazyScan (rbraceC :: fenceTail) = some [rbraceC]
      have hclose : checkClose fenceTail = true := by decide
      simp [lazyScan, hclose]
    | cons d m'' =>
      rw [prematureClose] at hprem
      rw [Bool.or_eq_false_iff] at hprem
      have h1 := hprem.1
      have hrec := hprem.2
      have hlast' : (d :: m'').getLast? = some rbraceC := by
        rwa [List.getLast?_cons_cons] at hlast
      have hih := ih (by simp) hlast' hrec
      have hcond : (c = rbraceC && checkClose ((d :: m'') ++ fenceTail)) = false := by
        by_contra hne
        rw [Bool.not_eq_false, Bool.and_eq_true] at hne
        rw [hne.1, hne.2] at h1
        simp at h1
      show lazyScan (c :: ((d :: m'') ++ fenceTail)) = some (c :: (d :: m''))
      rw [lazyScan, hcond]
      simp only [Bool.false_eq_true, if_false]
      rw [hih]

/-- A text with no triple backtick has no fenced-pattern match. -/
theorem fenceSearch_of_no_fence : ∀ t : Str, containsFence t = false →
    fenceSearch t = none := by
  intro t
  induction t with
  | nil => intro _; rfl
  | cons c rest ih =>
    intro h
    rw [containsFence, Bool.or_eq_false_iff] at h
    rw [fenceSearch, h.1]
    simp only [Bool.false_eq_true, if_false]
    exact ih h.2

/-- The fenced pattern on the wrapped text captures exactly the wrapped
object when the object starts with a brace, ends with a brace, and has no
premature close. -/
theorem fenceSearch_wrap (s : Str) (hhead : s.head? = some lbraceC)
    (hlast : s.getLast? = some rbraceC) (hprem : prematureClose s = false) :
    fenceSearch (wrapFence s) = some s := by
  obtain ⟨c, m, rfl⟩ : ∃ c m, s = c :: m := by
    cases s with
    | nil => simp at hhead
    | cons c m => exact ⟨c, m, rfl⟩
  have hc : c = lbraceC := by simpa using hhead
  subst hc
  have hm : m ≠ [] := by
    intro he
    rw [he] at hlast
    simp at hlast
    exact absurd hlast (by decide)
  have hmlast : m.getLast? = some rbraceC := by
    cases m with
    | nil => exact absurd rfl hm
    | cons d m'' => rwa [List.getLast?_cons_cons] at hlast
  have hmprem : prematureClose m = false := by
    rw [prematureClose, Bool.or_eq_false_iff] at hprem
    exact hprem.2
  have hscan := lazyScan_exact m hm hmlast hmprem
  have h0 : ("```json
").toList
      = backtickC :: backtickC :: backtickC :: ("json
").toList := by decide
  have h1 : ("
```").toList = fenceTail := by decide
  have hw : wrapFence (lbraceC :: m)
      = backtickC :: backtickC :: backtickC ::
          (("json
").toList ++ ((lbraceC :: m) ++ fenceTail)) := by
    simp only [wrapFence]
    rw [h0, h1]
    simp [List.cons_append, List.append_assoc]
  rw [hw, fenceSearch]
  have hpre : fenceStr.isPrefixOf (backtickC :: backtickC :: backtickC ::
      (("json
").toList ++ ((lbraceC :: m) ++ fenceTail))) = true := by
    simp [fenceStr, List.isPrefixOf]
  rw [hpre]
  simp only [if_true]
  have hdrop : (backtickC :: backtickC :: backtickC ::
      (("json
").toList ++ ((lbraceC :: m) ++ fenceTail))).drop 3
      = ("json
").toList ++ ((lbraceC :: m) ++ fenceTail) := rfl
  rw [hdrop]
  have hjson : (("json").toList).isPrefixOf
      (("json
").toList ++ ((lbraceC :: m) ++ fenceTail)) = true := by
    simp [List.isPrefixOf]
  rw [fenceAfter, if_pos (by simpa using hjson)]
  have hdrop4 : (("json
").toList ++ ((lbraceC :: m) ++ fenceTail)).drop 4
      = '\n' :: ((lbraceC :: m) ++ fenceTail) := rfl
  rw [hdrop4]
  have hws : skipWs ('\n' :: ((lbraceC :: m) ++ fenceTail))
      = lbraceC :: (m ++ fenceTail) := by
    show List.dropWhile pyWs _ = _
    rw [List.dropWhile_cons_of_pos (by decide)]
    rw [List.cons_append]
    rw [List.dropWhile_cons_of_neg (by decide)]
  rw [hws]
  simp [hscan]

/-- C8 as amended: the consolidator's structured extraction round-trips
the fenced wrapping — for a JSON object text that parses, starts with a
brace and ends with a brace, contains no premature close (no closing
brace followed by optional whitespace and a fence before its end), no
triple backtick, no bracket-scoped fallback match and no surrounding
whitespace, the extraction of the `json`-fenced wrapping and of the bare
text both yield the parsed object (the counterexample shows the premature
close condition cannot be dropped); and whenever neither the fenced
capture, the fallback match, nor the stripped text parses as JSON the
extraction returns null, while the consolidation loop still appends the
row with a null prediction. -/
theorem claim_C8_extraction_roundtrip :
    (∀ (s : Str) (v : JVal),
        jsonLoads s = some v →
        s.head? = some lbraceC →
        s.getLast? = some rbraceC →
        prematureClose s = false →
        containsFence s = false →
        fallbackSearch s = none →
        pyStrip s = s →
        extract_json_from_evaluation (wrapFence s) = some v
          ∧ extract_json_from_evaluation s = some v)
    ∧ (∀ t : Str, t ≠ [] →
        (∀ g, fenceSearch t = some g → jsonLoads g = none) →
        (∀ g, fallbackSearch t = some g → jsonLoads g = none) →
        jsonLoads (pyStrip t) = none →
        extract_json_from_evaluation t = none)
    ∧ (∀ (cfg : EvalConfig) (mn : Str) (st : List Str × List CEval) (f : RFile),
        cfg.parse_json = true →
        extract_json_from_evaluation f.evaluation = none →
        globOK f = true → ¬ fname f = sumName → f.stem ∉ st.1 → promptOK cfg f = true →
        consolStep cfg mn st f
          = (st.1 ++ [f.stem],
             st.2 ++ [⟨f.stem, mn, f.model_id, .parsed none, f.timestamp,
               some f.evaluation⟩])) := by
  refine ⟨?_, ?_, ?_⟩
  · intro s v hload hhead hlast hprem hnofence hnofall hstrip
    have hfs := fenceSearch_wrap s hhead hlast hprem
    constructor
    · have hne : wrapFence s ≠ [] := by
        simp [wrapFence]
      obtain ⟨c, rest, hw⟩ : ∃ c rest, wrapFence s = c :: rest := by
        cases hwf : wrapFence s with
        | nil => exact absurd hwf hne
        | cons c rest => exact ⟨c, rest, rfl⟩
      rw [hw] at hfs ⊢
      show (match fenceSearch (c :: rest) with
        | some g => jsonLoads g
        | none => _) = some v
      rw [hfs]
      exact hload
    · obtain ⟨c, rest, hw⟩ : ∃ c rest, s = c :: rest := by
        cases s with
        | nil => simp at hhead
        | cons c rest => exact ⟨c, rest, rfl⟩
      have hfn : fenceSearch s = none := fenceSearch_of_no_fence s hnofence
      rw [hw] at hfn hnofall hstrip hload ⊢
      show (match fenceSearch (c :: rest) with
        | some g => jsonLoads g
        | none =>
          match fallbackSearch (c :: rest) with
          | some g => jsonLoads g
          | none => jsonLoads (pyStrip (c :: rest))) = some v
      rw [hfn, hnofall, hstrip]
      exact hload
  · intro t hne hfence hfall hstrip
    obtain ⟨c, rest, hw⟩ : ∃ c rest, t = c :: rest := by
      cases t with
      | nil => exact absurd rfl hne
      | cons c rest => exact ⟨c, rest, rfl⟩
    subst hw
    show (match fenceSearch (c :: rest) with
      | some g => jsonLoads g
      | none =>
        match fallbackSearch (c :: rest) with
        | some g => jsonLoads g
        | none => jsonLoads (pyStrip (c :: rest))) = none
    rcases h1 : fenceSearch (c :: rest) with _ | g
    · rcases h2 : fallbackSearch (c :: rest) with _ | g
      · exact hstrip
      · exact hfall g h2
    · exact hfence g h1
  · intro cfg mn st f hpj hext hg hsum hseen hpr
    have hmk : mkCEval cfg mn f
        = ⟨f.stem, mn, f.model_id, .parsed none, f.timestamp, some f.evaluation⟩ := by
      simp [mkCEval, hpj, hext]
    rw [← hmk]
    simp [consolStep, hg, hsum, hseen, hpr]

/-- C8 counterexample: `c8Bad` is a valid JSON object (it parses, and the
bare extraction succeeds on it), yet the extraction of its fenced
wrapping returns null — the lazy capture of the fence pattern stops at
the closing brace inside the label, so wrapped and unwrapped extraction
differ, contradicting the claim for every fenced valid object. -/
theorem claim_C8_counterexample :
    (jsonLoads c8Bad).isSome = true
    ∧ (extract_json_from_evaluation c8Bad).isSome = true
    ∧ (extract_json_from_evaluation (wrapFence c8Bad)).isNone = true
    ∧ extract_json_from_evaluation (wrapFence c8Bad) ≠ extract_json_from_evaluation c8Bad := by
  refine ⟨by decide, by decide, by decide, ?_⟩
  intro h
  have hn : (extract_json_from_evaluation (wrapFence c8Bad)).isNone = true := by decide
  have hs : (extract_json_from_evaluation c8Bad).isSome = true := by decide
  rw [h] at hn
  rw [Option.isNone_iff_eq_none] at hn
  rw [hn] at hs
  simp at hs

/-- C8 witness: the round trip at the spec's example — fenced and
unfenced extraction agree on the parsed structure. -/
theorem claim_C8_witness :
    jsonLoads c8Good = some c8GoodVal
    ∧ prematureClose c8Good = false
    ∧ extract_json_from_evaluation (wrapFence c8Good) = some c8GoodVal
    ∧ extract_json_from_evaluation c8Good = some c8GoodVal := by
  have h := claim_C8_extraction_roundtrip.1 c8Good c8GoodVal (by rfl) (by rfl) (by rfl)
    (by decide) (by decide) (by rfl) (by rfl)
  exact ⟨by rfl, by decide, h.1, h.2⟩
